import Mathlib

/-!
Verification of the weekly scoreboard post logic of the
TeamStatusTrackerDiscordBot repository (`weekly_post_manager.py`).

Python strings are modelled as `List Char` (one element per Unicode code
point, matching Python's indexing and slicing semantics).  The Discord
channel, the `StatusDB` streak table and the JSON state file are external
collaborators: they are modelled as explicit inputs/outputs (a fetch
function, a `Nat → Nat` streak table, an optional parsed file record).
-/

/-- A Python string: a sequence of Unicode code points. -/
abbrev Str := List Char

namespace PyStr

/-- Python `s.split('\n')`: splitting an empty string yields `[""]`. -/
def splitLines : Str → List Str
  | [] => [[]]
  | c :: rest =>
    if c = '\n' then [] :: splitLines rest
    else
      match splitLines rest with
      | [] => [[c]]
      | l :: ls => (c :: l) :: ls

/-- Python `'\n'.join(lines)`. -/
def joinLines : List Str → Str
  | [] => []
  | [l] => l
  | l :: ls => l ++ '\n' :: joinLines ls

/-- Python `s.strip()`: remove leading and trailing whitespace. -/
def strip (s : Str) : Str :=
  ((s.dropWhile Char.isWhitespace).reverse.dropWhile Char.isWhitespace).reverse

/-- Python `s.ljust(w)` with the space fill character. -/
def ljust (s : Str) (w : Nat) : Str :=
  s ++ List.replicate (w - s.length) ' '

/-- Python `s.find(c)` for a single-character needle, `none` for `-1`. -/
def findChar : Str → Char → Option Nat
  | [], _ => none
  | a :: r, c => if a = c then some 0 else (findChar r c).map (· + 1)

/-- Python `s.find(sub)` for a general needle, `none` for `-1`. -/
def findSub : Str → Str → Option Nat
  | s, needle =>
    if needle.isPrefixOf s then some 0
    else
      match s with
      | [] => none
      | _ :: r => (findSub r needle).map (· + 1)

/-- Python `sub in s`. -/
def isSubstr (needle hay : Str) : Bool :=
  (findSub hay needle).isSome

/-- Fuel-indexed worker for `replaceAll`; the fuel always bounds the length
of the string being scanned, so the scan never runs out. -/
def replaceAllAux (old new : Str) : Nat → Str → Str
  | 0, s => s
  | fuel + 1, s =>
    if old ≠ [] ∧ old.isPrefixOf s then
      new ++ replaceAllAux old new fuel (s.drop old.length)
    else
      match s with
      | [] => []
      | a :: r => a :: replaceAllAux old new fuel r

/-- Python `s.replace(old, new)`: replace every non-overlapping occurrence,
scanning left to right.  (The `old = ""` case is never exercised by the
embedded code and is modelled as the identity.) -/
def replaceAll (s old new : Str) : Str :=
  replaceAllAux old new s.length s

/-- Decimal digit character for a value below ten. -/
def digitChar (d : Nat) : Char :=
  Char.ofNat (48 + d)

/-- Fuel-indexed worker for `natStr`. -/
def natStrAux : Nat → Nat → Str
  | 0, _ => []
  | fuel + 1, n =>
    if n < 10 then [digitChar n]
    else natStrAux fuel (n / 10) ++ [digitChar (n % 10)]

/-- Decimal rendering of a natural number, as Python's `str(n)`. -/
def natStr (n : Nat) : Str :=
  natStrAux (n + 1) n

end PyStr

open PyStr

/-- A team member as used by the post manager: an opaque Discord id and a
display name (the other `TeamMember` fields are irrelevant here). -/
structure TeamMember where
  discord_id : Nat
  name : Str
  deriving DecidableEq, Repr

/-- Python `max((len(m.name) for m in team_members), default=0)` from the
`WeeklyPostManager` constructor (kept up to date on roster changes). -/
def max_name_length (roster : List TeamMember) : Nat :=
  (roster.map (fun m => m.name.length)).foldr max 0

/-- The `(Streak: {n} {day|days})` annotation appended to every line. -/
def streakAnnot (n : Nat) : Str :=
  ("(Streak: ".data) ++ natStr n ++ (' ' :: (if n = 1 then "day".data else "days".data)) ++ [')']

/-- The backtick-delimited core of a member line:
`` `{name.ljust(w)} {marks} (Streak: {n} {suffix})` ``. -/
def lineCore (w : Nat) (name marks : Str) (streak : Nat) : Str :=
  '`' :: ljust name w ++ ' ' :: marks ++ ' ' :: streakAnnot streak ++ ['`']

/-- A full member line `# `...``, as produced by `initialize_post` and
`rebuild_post`. -/
def mkLine (w : Nat) (name marks : Str) (streak : Nat) : Str :=
  '#' :: ' ' :: lineCore w name marks streak

/-- The five-pending-marks string `'❓' * 5`. -/
def fiveQ : Str :=
  List.replicate 5 '❓'

/-- The state persisted in `weekly_post_data.json`, already parsed: the post
id and the saved timestamp (abstracted to the data the code reads off it,
its iso-calendar week number). -/
structure FileData where
  post_id : Option Nat
  timestamp : Option Nat
  deriving DecidableEq, Repr

/-- The `load_weekly_post_data` method.  The JSON file is modelled as
`Option FileData` (`none` when the file does not exist).  Returns the
loaded `(post_id, timestamp)` pair together with the file contents after
the call: when the file is absent both fields are set to `None` and an
empty JSON object is written. -/
def load_weekly_post_data (file : Option FileData) :
    (Option Nat × Option Nat) × Option FileData :=
  match file with
  | some d => ((d.post_id, d.timestamp), some d)
  | none => ((none, none), some ⟨none, none⟩)

/-- The member list rendered by `initialize_post`: one line per member,
five pending marks, streak fetched from the database. -/
def renderInit (w : Nat) (db : Nat → Nat) (roster : List TeamMember) : Str :=
  joinLines (roster.map (fun m => mkLine w m.name fiveQ (db m.discord_id)))

/-- Result of `initialize_post`: the editable post (id and content) it ends
up holding, and the freshly persisted `(post_id, week)` record if
`save_weekly_post_data` was called (`none` when nothing new was saved). -/
structure InitResult where
  post : Option (Nat × Str)
  saved : Option (Nat × Nat)
  deriving DecidableEq, Repr

/-- The `initialize_post` method.  `savedId`/`savedWeek` are the persisted
post id and the iso-week of the persisted timestamp, `currentWeek` the
iso-week of `datetime.now()`.  `fetch` is `channel.fetch_message`, which
can fail (`Except`); the code calls it without any exception handler, so
in the current-week branch a fetch failure propagates through the `do`
bind.  Otherwise it renders the member list and, when that string is
nonempty, sends it as a new post (id `newId`) and persists the state.
The two header messages (title and date range) are separate sends, not
part of the tracked editable post, and are omitted. -/
def initialize_post {ε : Type} (savedId : Option Nat) (savedWeek : Option Nat)
    (currentWeek : Nat) (fetch : Nat → Except ε (Nat × Str))
    (w : Nat) (db : Nat → Nat) (roster : List TeamMember) (newId : Nat) :
    Except ε InitResult :=
  match savedId, savedWeek with
  | some pid, some wk =>
    if currentWeek = wk then
      (fetch pid).map (fun p => ⟨some p, none⟩)
    else
      let c := renderInit w db roster
      if c = [] then .ok ⟨none, none⟩ else .ok ⟨some (newId, c), some (newId, currentWeek)⟩
  | _, _ =>
    let c := renderInit w db roster
    if c = [] then .ok ⟨none, none⟩ else .ok ⟨some (newId, c), some (newId, currentWeek)⟩

/-- The `update_post` method, acting on the post content.  `newStreak` is
the value `db.get_streak(member.discord_id)` returns at the re-query.
Mirrors the Python code line by line: locate the first line containing the
member's name as a substring, strip `#` and whitespace, take everything
after the first space, flip the first `❓` to `✅`, rebuild the line with
the re-queried streak, and `str.replace` the old stripped line with the
new one in the whole content. -/
def update_post (w : Nat) (name : Str) (newStreak : Nat) (content : Str) : Str :=
  match (splitLines content).find? (fun l => isSubstr name l) with
  | none => content
  | some line0 =>
    let lte := strip (replaceAll line0 ['#'] [])
    let marksStreak :=
      match findChar lte ' ' with
      | some i => strip (lte.drop i)
      | none => strip (lte.drop (lte.length - 1))
    match findChar marksStreak '❓' with
    | none => content
    | some q =>
      let newMarks := marksStreak.take q ++ '✅' :: marksStreak.drop (q + 1)
      let newLine :=
        '`' :: ljust name w ++ ' ' :: strip (newMarks.takeWhile (fun c => ¬ c = '(')) ++
          ' ' :: streakAnnot newStreak ++ ['`']
      replaceAll content lte newLine

/-- The `has_minimum_checkmarks` method: find the member name anywhere in
the content, skip `max_name_length + 1` characters past it and count the
`✅` among the next five characters. -/
def has_minimum_checkmarks (w : Nat) (content name : Str) (n : Nat) : Bool :=
  match findSub content name with
  | none => false
  | some i => n ≤ ((content.drop (i + w + 1)).take 5).count '✅'

/-- The `StatusDB.update_streak` call: point update of the streak table. -/
def update_streak (db : Nat → Nat) (id streak : Nat) : Nat → Nat :=
  fun x => if x = id then streak else db x

/-- The `reset_streaks` method: reset the streak of every roster member
without at least five checkmarks to zero. -/
def reset_streaks (w : Nat) (content : Str) (roster : List TeamMember)
    (db : Nat → Nat) : Nat → Nat :=
  roster.foldl
    (fun d m =>
      if ¬ has_minimum_checkmarks w content m.name 5 then update_streak d m.discord_id 0
      else d)
    db

/-- Mark extraction inside `rebuild_post`: five characters starting at the
first `✅` of the member's line, else five characters starting at the first
`❓`, else the all-pending default. -/
def extractMarks (line : Str) : Str :=
  match findChar line '✅' with
  | some i => (line.drop i).take 5
  | none =>
    match findChar line '❓' with
    | some j => (line.drop j).take 5
    | none => fiveQ

/-- The per-member mark lookup of `rebuild_post`: first line of the current
content containing the member's name, defaulting to all pending. -/
def memberMarks (content : Str) (name : Str) : Str :=
  match (splitLines content).find? (fun l => isSubstr name l) with
  | some l => extractMarks l
  | none => fiveQ

/-- The full-rebuild branch of `rebuild_post`: re-render every roster line
from the marks parsed out of the current content and a fresh streak. -/
def rebuildRender (w : Nat) (db : Nat → Nat) (roster : List TeamMember)
    (content : Str) : Str :=
  joinLines (roster.map (fun m => mkLine w m.name (memberMarks content m.name) (db m.discord_id)))

/-- The `rebuild_post` method, on the content of the live post
(`none` when `editable_weekly_post is None`).  Returns the live post
content afterwards and whether `save_weekly_post_data` ran (it runs
exactly when a fresh post was created, persisting the new post id). -/
def rebuild_post (w : Nat) (db : Nat → Nat) (roster : List TeamMember)
    (post : Option Str) : Option Str × Bool :=
  match roster, post with
  | m :: _, none => (some (mkLine w m.name fiveQ (db m.discord_id)), true)
  | [], _ => (none, false)
  | _ :: _, some c => (some (rebuildRender w db roster c), false)

/-- The `add_member_to_post` method: append the member, recompute the
padding width, rebuild. -/
def add_member_to_post (db : Nat → Nat) (roster : List TeamMember)
    (member : TeamMember) (post : Option Str) : Option Str × Bool :=
  let roster' := roster ++ [member]
  rebuild_post (max_name_length roster') db roster' post

/-- The `remove_member_from_post` method: drop the member by id, recompute
the padding width, rebuild. -/
def remove_member_from_post (db : Nat → Nat) (roster : List TeamMember)
    (member : TeamMember) (post : Option Str) : Option Str × Bool :=
  let roster' := roster.filter (fun m => m.discord_id ≠ member.discord_id)
  rebuild_post (max_name_length roster') db roster' post

/-- The canonical five-slot mark string after `k` check-ins: `k` done marks
followed by `5 - k` pending marks.  Every mark string the code itself
produces within a week has this shape. -/
def canonMarks (k : Nat) : Str :=
  List.replicate k '✅' ++ List.replicate (5 - k) '❓'

/-- Abstract state of one scoreboard line: the member, the number `k` of
done marks, and the streak value currently rendered on the line. -/
structure Entry where
  member : TeamMember
  k : Nat
  s : Nat
  deriving DecidableEq, Repr

/-- The backtick core of the line rendered for an entry. -/
def entryCore (w : Nat) (e : Entry) : Str :=
  lineCore w e.member.name (canonMarks e.k) e.s

/-- The full line rendered for an entry. -/
def entryLine (w : Nat) (e : Entry) : Str :=
  mkLine w e.member.name (canonMarks e.k) e.s

/-- A canonically rendered post: one entry line per member, joined by
newlines.  This is exactly what `initialize_post` produces (all `k = 0`)
and what a sane history of `update_post` calls maintains. -/
def renderPost (w : Nat) (es : List Entry) : Str :=
  joinLines (es.map (entryLine w))

/-- Lines before a distinguished line, each with its separating newline. -/
def pJoin (ls : List Str) : Str :=
  (ls.map (fun l => l ++ ['\n'])).flatten

/-- Lines after a distinguished line, each with its separating newline. -/
def sJoin (ls : List Str) : Str :=
  (ls.map (fun l => '\n' :: l)).flatten

/-- Whether `n` occurs as a substring of `s` starting at index `j`. -/
def occursAtB (s n : Str) (j : Nat) : Bool :=
  n.isPrefixOf (s.drop j)

/-- The number of indices at which `n` occurs as a substring of `s`. -/
def numOccs (s n : Str) : Nat :=
  ((List.range (s.length + 1)).filter (fun j => occursAtB s n j)).length

/-- Character offset at which the `i`-th line of a rendered post starts. -/
def lineStart (w : Nat) (es : List Entry) (i : Nat) : Nat :=
  ((es.take i).map (fun e => (entryLine w e).length + 1)).sum

/-- A display name that cannot interfere with the line surgery of
`update_post`: it contains no newline (line structure), no `#` (stripped
away), no space (name-boundary detection) and no mark symbol. -/
def goodNameB (nm : Str) : Bool :=
  decide ('\n' ∉ nm) && decide ('#' ∉ nm) && decide (' ' ∉ nm) &&
    decide ('✅' ∉ nm) && decide ('❓' ∉ nm)

/-- Well-formedness of an abstract post state with respect to a padding
width: safe names, names no wider than the padding, at most five done
marks each. -/
def goodEntriesB (w : Nat) (es : List Entry) : Bool :=
  es.all (fun e => goodNameB e.member.name && decide (e.member.name.length ≤ w)
    && decide (e.k ≤ 5))

/-- Collision-freeness of a `record_checkin` call on member `i` in the
rendered state `es`: the first line containing the member's name is the
member's own line, and the member's backtick core occurs exactly once in
the whole content (so the string replacement touches nothing else). -/
def goodCallB (w : Nat) (es : List Entry) (i : Nat) : Bool :=
  match es[i]? with
  | none => false
  | some e =>
    decide ((splitLines (renderPost w es)).find? (fun l => isSubstr e.member.name l)
        = some (entryLine w e)) &&
      decide (numOccs (renderPost w es) (entryCore w e) = 1)

/-- Abstract effect of one `record_checkin` call `(i, s)`: if member `i`
still has a pending slot, its done count grows by one and its rendered
streak becomes `s`; otherwise nothing changes. -/
def stepEntry (es : List Entry) (p : Nat × Nat) : List Entry :=
  match es[p.1]? with
  | none => es
  | some e => if e.k < 5 then es.set p.1 ⟨e.member, e.k + 1, p.2⟩ else es

/-- Abstract effect of a sequence of `record_checkin` calls. -/
def runEntries (es : List Entry) (calls : List (Nat × Nat)) : List Entry :=
  calls.foldl stepEntry es

/-- Name of the member a call refers to, out of the fixed roster order. -/
def callName (names : List Str) (i : Nat) : Str :=
  names.getD i []

/-- Concrete effect of a sequence of `record_checkin` calls on the post
content: each call `(i, s)` runs `update_post` for the `i`-th member with
re-queried streak `s`. -/
def applyCalls (w : Nat) (names : List Str) (content : Str)
    (calls : List (Nat × Nat)) : Str :=
  calls.foldl (fun c p => update_post w (callName names p.1) p.2 c) content

/-- Concrete two-member post for the name-collision scenario: `Bob` and
`Bo`, where `Bo` is a substring of `Bob`'s line. -/
def bobBoContent : Str :=
  joinLines [mkLine 3 ("Bob".data) fiveQ 0, mkLine 3 ("Bo".data) fiveQ 0]

/-- Roster of the rebuild-aliasing scenario: each name is a substring of
the previous member's rendered line. -/
def c4Roster : List TeamMember :=
  [⟨1, "CAB".data⟩, ⟨2, "AB".data⟩, ⟨3, "B  ".data⟩]

/-- Live post content for the rebuild-aliasing scenario: the first member
has one done mark, the others none. -/
def c4Start : Str :=
  joinLines [mkLine 3 ("CAB".data) ('✅' :: List.replicate 4 '❓') 0,
    mkLine 3 ("AB".data) fiveQ 0, mkLine 3 ("B  ".data) fiveQ 0]

/-- The all-zero streak table. -/
def zeroDb : Nat → Nat :=
  fun _ => 0

/-- A plain two-member roster with collision-free names. -/
def twoRoster : List TeamMember :=
  [⟨1, "Alice".data⟩, ⟨2, "Bob".data⟩]

/-- Collision-free two-member abstract state used to exercise the
`update_post` theorems on concrete input. -/
def c5Entries : List Entry :=
  [⟨⟨1, "Alice".data⟩, 0, 0⟩, ⟨⟨2, "Bob".data⟩, 2, 1⟩]

/-- Abstract state of the week-close scenario: Alice at five of five done
marks, Bob at three of five. -/
def c7Entries : List Entry :=
  [⟨⟨1, "Alice".data⟩, 5, 4⟩, ⟨⟨2, "Bob".data⟩, 3, 2⟩]

/-- Collision state for the no-op claim: `Bob` all pending, `Bo` fully
checked in.  `Bo`'s name is a substring of `Bob`'s line. -/
def c3CollEntries : List Entry :=
  [⟨⟨1, "Bob".data⟩, 0, 0⟩, ⟨⟨2, "Bo".data⟩, 5, 0⟩]

/-- Collision state for the monotonicity claim: `Bob` with two done marks,
`Bo` with none. -/
def c5CollEntries : List Entry :=
  [⟨⟨1, "Bob".data⟩, 2, 0⟩, ⟨⟨2, "Bo".data⟩, 0, 0⟩]

/-- Collision state for the week-close claim: `Bob` at three of five,
`Bo` at five of five. -/
def c7CollEntries : List Entry :=
  [⟨⟨1, "Bob".data⟩, 3, 0⟩, ⟨⟨2, "Bo".data⟩, 5, 0⟩]

namespace PyStr

theorem splitLines_of_no_nl (l : Str) (h : '\n' ∉ l) : splitLines l = [l] := by
  induction l with
  | nil => rfl
  | cons c r ih =>
    have hc : ¬ c = '\n' := by rintro rfl; exact h (List.mem_cons_self _ _)
    have hr : '\n' ∉ r := fun hm => h (List.mem_cons_of_mem _ hm)
    simp [splitLines, hc, ih hr]

theorem splitLines_append (l t : Str) (h : '\n' ∉ l) :
    splitLines (l ++ '\n' :: t) = l :: splitLines t := by
  induction l with
  | nil => simp [splitLines]
  | cons c r ih =>
    have hc : ¬ c = '\n' := by rintro rfl; exact h (List.mem_cons_self _ _)
    have hr : '\n' ∉ r := fun hm => h (List.mem_cons_of_mem _ hm)
    simp [splitLines, hc, ih hr]

theorem joinLines_cons (l : Str) (ls : List Str) (h : ls ≠ []) :
    joinLines (l :: ls) = l ++ '\n' :: joinLines ls := by
  cases ls with
  | nil => exact absurd rfl h
  | cons a as => rfl

theorem splitLines_joinLines (ls : List Str) (h : ls ≠ [])
    (hnl : ∀ l ∈ ls, '\n' ∉ l) : splitLines (joinLines ls) = ls := by
  induction ls with
  | nil => cases h rfl
  | cons l rest ih =>
    cases rest with
    | nil => simpa [joinLines] using splitLines_of_no_nl l (hnl l (by simp))
    | cons a as =>
      rw [joinLines_cons _ _ (by simp), splitLines_append _ _ (hnl l (by simp)),
        ih (by simp) (fun x hx => hnl x (List.mem_cons_of_mem _ hx))]

theorem no_nl_of_mem_splitLines {s l : Str} (h : l ∈ splitLines s) : '\n' ∉ l := by
  induction s generalizing l with
  | nil =>
    simp [splitLines] at h
    simp [h]
  | cons c r ih =>
    by_cases hc : c = '\n'
    · subst hc
      simp [splitLines] at h
      rcases h with h | h
      · simp [h]
      · exact ih h
    · rcases hsr : splitLines r with _ | ⟨x, xs⟩
      · simp [splitLines, hc, hsr] at h
        subst h
        intro hm
        rcases List.mem_cons.mp hm with h1 | h1
        · exact hc h1.symm
        · simp at h1
      · simp [splitLines, hc, hsr] at h
        rcases h with h | h
        · subst h
          intro hm
          rcases List.mem_cons.mp hm with h1 | h1
          · exact hc h1.symm
          · exact ih (hsr ▸ List.mem_cons_self x xs) h1
        · exact ih (hsr ▸ List.mem_cons_of_mem x h)

end PyStr

namespace PyStr

theorem dropWhile_ws_eq_self {s : Str}
    (h : ∀ c, s.head? = some c → ¬ c.isWhitespace) :
    s.dropWhile Char.isWhitespace = s := by
  cases s with
  | nil => rfl
  | cons a t => simp [List.dropWhile_cons, h a rfl]

theorem strip_eq_self {s : Str}
    (h1 : ∀ c, s.head? = some c → ¬ c.isWhitespace)
    (h2 : ∀ c, s.getLast? = some c → ¬ c.isWhitespace) :
    strip s = s := by
  unfold strip
  rw [dropWhile_ws_eq_self h1, dropWhile_ws_eq_self, List.reverse_reverse]
  intro c hc
  exact h2 c (by rwa [List.head?_reverse] at hc)

theorem strip_cons_ws {c : Char} (s : Str) (h : c.isWhitespace) :
    strip (c :: s) = strip s := by
  simp [strip, List.dropWhile_cons, h]

theorem strip_replicate_space (n : Nat) (s : Str) :
    strip (List.replicate n ' ' ++ s) = strip s := by
  induction n with
  | zero => rfl
  | succ m ih =>
    rw [List.replicate_succ, List.cons_append,
      strip_cons_ws _ (show (' ' : Char).isWhitespace = true by decide), ih]

theorem strip_append_ws (s : Str) {c : Char} (hc : c.isWhitespace) :
    strip (s ++ [c]) = strip s := by
  unfold strip
  rw [List.dropWhile_append]
  rcases hd : s.dropWhile Char.isWhitespace with _ | ⟨a, t⟩ <;>
    simp [hd, List.dropWhile_cons, hc]

theorem mem_of_mem_strip {x : Char} {s : Str} (h : x ∈ strip s) : x ∈ s := by
  unfold strip at h
  rw [List.mem_reverse] at h
  have h2 := (List.dropWhile_sublist _ ).mem h
  rw [List.mem_reverse] at h2
  exact (List.dropWhile_sublist _ ).mem h2

theorem findChar_eq_none {s : Str} {c : Char} (h : c ∉ s) : findChar s c = none := by
  induction s with
  | nil => rfl
  | cons a r ih =>
    have ha : ¬ a = c := fun hac => h (hac ▸ List.mem_cons_self _ _)
    simp [findChar, ha, ih (fun hm => h (List.mem_cons_of_mem _ hm))]

theorem findChar_append {xs ys : Str} {c : Char} (h : c ∉ xs) :
    findChar (xs ++ c :: ys) c = some xs.length := by
  induction xs with
  | nil => simp [findChar]
  | cons a r ih =>
    have ha : ¬ a = c := fun hac => h (hac ▸ List.mem_cons_self _ _)
    simp [findChar, ha, ih (fun hm => h (List.mem_cons_of_mem _ hm))]

end PyStr

namespace PyStr

theorem replaceAllAux_nil (old new : Str) (f : Nat) :
    replaceAllAux old new f [] = [] := by
  cases f with
  | zero => rfl
  | succ g =>
    rcases ho : old with _ | ⟨a, t⟩
    · simp [replaceAllAux]
    · simp [replaceAllAux, List.isPrefixOf]

theorem replaceAllAux_fuel (old new : Str) (f₁ : Nat) :
    ∀ (f₂ : Nat) (s : Str), s.length ≤ f₁ → s.length ≤ f₂ →
      replaceAllAux old new f₁ s = replaceAllAux old new f₂ s := by
  induction f₁ with
  | zero =>
    intro f₂ s h₁ _
    rw [List.length_eq_zero.mp (Nat.le_zero.mp h₁)]
    rw [replaceAllAux_nil, replaceAllAux_nil]
  | succ g ih =>
    intro f₂ s h₁ h₂
    cases s with
    | nil => rw [replaceAllAux_nil, replaceAllAux_nil]
    | cons a r =>
      have hf₂ : ∃ g₂, f₂ = g₂ + 1 := by
        cases f₂ with
        | zero => simp at h₂
        | succ g₂ => exact ⟨g₂, rfl⟩
      rcases hf₂ with ⟨g₂, rfl⟩
      by_cases hcond : old ≠ [] ∧ old.isPrefixOf (a :: r)
      · have hlen : ((a :: r).drop old.length).length ≤ g := by
          have : 1 ≤ old.length := by
            rcases hcond with ⟨hne, _⟩
            cases old with
            | nil => cases hne rfl
            | cons _ _ => simp
          simp only [List.length_drop]
          omega
        have hlen₂ : ((a :: r).drop old.length).length ≤ g₂ := by
          have : 1 ≤ old.length := by
            rcases hcond with ⟨hne, _⟩
            cases old with
            | nil => cases hne rfl
            | cons _ _ => simp
          simp only [List.length_drop]
          omega
        simp only [replaceAllAux, if_pos hcond]
        rw [ih g₂ _ hlen hlen₂]
      · simp only [replaceAllAux, if_neg hcond]
        rw [ih g₂ r (by simpa using h₁) (by simpa using h₂)]

theorem replaceAll_pos {old : Str} (s new : Str) (hne : old ≠ [])
    (hp : old.isPrefixOf s) :
    replaceAll s old new = new ++ replaceAll (s.drop old.length) old new := by
  cases s with
  | nil =>
    exfalso
    cases old with
    | nil => exact hne rfl
    | cons a t => simp [List.isPrefixOf] at hp
  | cons a r =>
    show replaceAllAux old new (r.length + 1) (a :: r) = _
    rw [replaceAllAux, if_pos ⟨hne, hp⟩]
    congr 1
    have hol : 1 ≤ old.length := by
      cases old with
      | nil => cases hne rfl
      | cons _ _ => simp
    exact replaceAllAux_fuel old new r.length _ _
      (by simp only [List.length_drop, List.length_cons]; omega)
      (by simp only [List.length_drop]; exact Nat.le_refl _)

theorem replaceAll_neg {old : Str} (a : Char) (r new : Str)
    (h : ¬ (old ≠ [] ∧ old.isPrefixOf (a :: r))) :
    replaceAll (a :: r) old new = a :: replaceAll r old new := by
  show replaceAllAux old new (r.length + 1) (a :: r) = _
  rw [replaceAllAux, if_neg h]
  rfl

theorem occursAtB_cons_succ (a : Char) (s n : Str) (j : Nat) :
    occursAtB (a :: s) n (j + 1) = occursAtB s n j := rfl

theorem occursAtB_zero (s n : Str) : occursAtB s n 0 = n.isPrefixOf s := rfl

theorem replaceAll_of_no_occ {old : Str} (s new : Str)
    (h : ∀ j, occursAtB s old j = false) : replaceAll s old new = s := by
  induction s with
  | nil => rfl
  | cons a r ih =>
    have h0 : old.isPrefixOf (a :: r) = false := h 0
    rw [replaceAll_neg a r new (by simp [h0])]
    rw [ih (fun j => h (j + 1))]

theorem occursAtB_lt {s n : Str} {j : Nat} (hne : n ≠ [])
    (h : occursAtB s n j = true) : j < s.length := by
  unfold occursAtB at h
  rw [List.isPrefixOf_iff_prefix] at h
  by_contra hj
  rw [List.drop_of_length_le (Nat.le_of_not_lt hj)] at h
  exact hne (List.prefix_nil.mp h)

theorem occursAtB_append_add (P s n : Str) (j : Nat) :
    occursAtB (P ++ s) n (P.length + j) = occursAtB s n j := by
  unfold occursAtB
  rw [List.drop_append]

theorem numOccs_unique {s n : Str} (hne : n ≠ []) (h : numOccs s n = 1)
    {j₀ j₁ : Nat} (h₀ : occursAtB s n j₀ = true) (h₁ : occursAtB s n j₁ = true) :
    j₀ = j₁ := by
  unfold numOccs at h
  rcases List.length_eq_one.mp h with ⟨x, hx⟩
  have hm₀ : j₀ ∈ (List.range (s.length + 1)).filter (fun j => occursAtB s n j) :=
    List.mem_filter.mpr ⟨List.mem_range.mpr (by
      have := occursAtB_lt hne h₀
      omega), h₀⟩
  have hm₁ : j₁ ∈ (List.range (s.length + 1)).filter (fun j => occursAtB s n j) :=
    List.mem_filter.mpr ⟨List.mem_range.mpr (by
      have := occursAtB_lt hne h₁
      omega), h₁⟩
  rw [hx] at hm₀ hm₁
  rw [List.mem_singleton.mp hm₀, List.mem_singleton.mp hm₁]

theorem replaceAll_unique {old : Str} (A B new : Str) (hne : old ≠ [])
    (h : ∀ j, occursAtB (A ++ (old ++ B)) old j = true → j = A.length) :
    replaceAll (A ++ (old ++ B)) old new = A ++ (new ++ B) := by
  induction A with
  | nil =>
    simp only [List.nil_append, List.length_nil] at h ⊢
    rw [replaceAll_pos _ new hne (List.isPrefixOf_iff_prefix.mpr (List.prefix_append _ _))]
    rw [List.drop_left]
    congr 1
    apply replaceAll_of_no_occ _ new
    intro j
    cases hb : occursAtB B old j
    · rfl
    · exfalso
      have h2 := h (old.length + j) (by rw [occursAtB_append_add]; exact hb)
      have h3 : old.length = 0 := by omega
      exact hne (List.length_eq_zero.mp h3)
  | cons a A' ih =>
    have hnp : ¬ (old ≠ [] ∧ old.isPrefixOf (a :: (A' ++ (old ++ B)))) := by
      rintro ⟨_, hp⟩
      have h2 := h 0 hp
      simp at h2
    show replaceAll (a :: (A' ++ (old ++ B))) old new = a :: (A' ++ (new ++ B))
    rw [replaceAll_neg _ _ _ hnp]
    rw [ih (fun j hj => by
      have h2 := h (j + 1) hj
      simpa using h2)]

theorem mem_replaceAllAux_nil_new {x : Char} (old : Str) :
    ∀ (f : Nat) (s : Str), x ∈ replaceAllAux old [] f s → x ∈ s := by
  intro f
  induction f with
  | zero => intro s h; exact h
  | succ g ih =>
    intro s h
    cases s with
    | nil => rwa [replaceAllAux_nil] at h
    | cons a r =>
      by_cases hcond : old ≠ [] ∧ old.isPrefixOf (a :: r)
      · rw [replaceAllAux, if_pos hcond] at h
        simp only [List.nil_append] at h
        exact (List.drop_sublist _ _).mem (ih _ h)
      · rw [replaceAllAux, if_neg hcond] at h
        rcases List.mem_cons.mp h with h1 | h1
        · exact h1 ▸ List.mem_cons_self _ _
        · exact List.mem_cons_of_mem _ (ih _ h1)

theorem mem_of_mem_replaceAll_nil {x : Char} {s old : Str}
    (h : x ∈ replaceAll s old []) : x ∈ s :=
  mem_replaceAllAux_nil_new old _ s h

end PyStr

namespace PyStr

theorem digitChar_isDigit {d : Nat} (h : d < 10) : (digitChar d).isDigit = true := by
  interval_cases d <;> decide

theorem mem_natStrAux_isDigit {c : Char} :
    ∀ {f n : Nat}, c ∈ natStrAux f n → c.isDigit = true := by
  intro f
  induction f with
  | zero => intro n h; simp [natStrAux] at h
  | succ g ih =>
    intro n h
    by_cases h10 : n < 10
    · simp only [natStrAux, if_pos h10, List.mem_singleton] at h
      exact h ▸ digitChar_isDigit h10
    · simp only [natStrAux, if_neg h10] at h
      rcases List.mem_append.mp h with h1 | h1
      · exact ih h1
      · have h2 := List.mem_singleton.mp h1
        exact h2 ▸ digitChar_isDigit (Nat.mod_lt _ (by norm_num))

theorem mem_natStr_isDigit {c : Char} {n : Nat} (h : c ∈ natStr n) :
    c.isDigit = true :=
  mem_natStrAux_isDigit h

end PyStr

theorem streakAnnot_eq (n : Nat) : streakAnnot n =
    '(' :: (['S', 't', 'r', 'e', 'a', 'k', ':', ' '] ++ natStr n ++
      (' ' :: (if n = 1 then ['d', 'a', 'y'] else ['d', 'a', 'y', 's'])) ++ [')']) := by
  unfold streakAnnot
  have h1 : "(Streak: ".data = ['(', 'S', 't', 'r', 'e', 'a', 'k', ':', ' '] := by decide
  have h2 : "day".data = ['d', 'a', 'y'] := by decide
  have h3 : "days".data = ['d', 'a', 'y', 's'] := by decide
  rw [h1, h2, h3]
  simp

theorem mem_streakAnnot {c : Char} {n : Nat} (h : c ∈ streakAnnot n) :
    c.isDigit = true ∨ c ∈ ['(', 'S', 't', 'r', 'e', 'a', 'k', ':', ' ', 'd', 'y', 's', ')'] := by
  rw [streakAnnot_eq] at h
  rcases List.mem_cons.mp h with h1 | h1
  · right; rw [h1]; decide
  simp only [List.append_assoc] at h1
  rcases List.mem_append.mp h1 with h2 | h2
  · right
    exact (show ∀ x ∈ (['S', 't', 'r', 'e', 'a', 'k', ':', ' '] : Str),
      x ∈ (['(', 'S', 't', 'r', 'e', 'a', 'k', ':', ' ', 'd', 'y', 's', ')'] : Str) by decide) c h2
  rcases List.mem_append.mp h2 with h3 | h3
  · left; exact mem_natStr_isDigit h3
  rcases List.mem_append.mp h3 with h4 | h4
  · rcases List.mem_cons.mp h4 with h5 | h5
    · right; rw [h5]; decide
    · right
      by_cases hn : n = 1
      · rw [if_pos hn] at h5
        exact (show ∀ x ∈ (['d', 'a', 'y'] : Str),
          x ∈ (['(', 'S', 't', 'r', 'e', 'a', 'k', ':', ' ', 'd', 'y', 's', ')'] : Str) by decide) c h5
      · rw [if_neg hn] at h5
        exact (show ∀ x ∈ (['d', 'a', 'y', 's'] : Str),
          x ∈ (['(', 'S', 't', 'r', 'e', 'a', 'k', ':', ' ', 'd', 'y', 's', ')'] : Str) by decide) c h5
  · right
    rw [List.mem_singleton.mp h4]
    decide

theorem not_mem_streakAnnot {c : Char} (n : Nat) (hd : c.isDigit = false)
    (hm : c ∉ ['(', 'S', 't', 'r', 'e', 'a', 'k', ':', ' ', 'd', 'y', 's', ')']) :
    c ∉ streakAnnot n := by
  intro h
  rcases mem_streakAnnot h with h1 | h1
  · rw [hd] at h1; cases h1
  · exact hm h1

theorem streakAnnot_getLast? (n : Nat) : (streakAnnot n).getLast? = some ')' := by
  rw [streakAnnot_eq]
  rw [show ('(' :: (['S', 't', 'r', 'e', 'a', 'k', ':', ' '] ++ natStr n ++
      (' ' :: (if n = 1 then ['d', 'a', 'y'] else ['d', 'a', 'y', 's'])) ++ [')'])) =
    ('(' :: (['S', 't', 'r', 'e', 'a', 'k', ':', ' '] ++ natStr n ++
      (' ' :: (if n = 1 then ['d', 'a', 'y'] else ['d', 'a', 'y', 's'])))) ++ [')'] by simp]
  exact List.getLast?_concat _

theorem ljust_length {s : Str} {w : Nat} (h : s.length ≤ w) :
    (ljust s w).length = w := by
  simp [ljust]
  omega

theorem canonMarks_length {k : Nat} (h : k ≤ 5) : (canonMarks k).length = 5 := by
  simp [canonMarks]
  omega

theorem canonMarks_count {k : Nat} (h : k ≤ 5) : (canonMarks k).count '✅' = k := by
  unfold canonMarks
  rw [List.count_append, List.count_replicate, List.count_replicate,
    if_pos (by decide), if_neg (by decide)]
  omega

theorem canonMarks_eq_lt {k : Nat} (h : k < 5) :
    canonMarks k = List.replicate k '✅' ++ '❓' :: List.replicate (4 - k) '❓' := by
  unfold canonMarks
  congr 1
  rw [show 5 - k = (4 - k) + 1 by omega, List.replicate_succ]

theorem canonMarks_succ_eq {k : Nat} (h : k < 5) :
    List.replicate k '✅' ++ '✅' :: List.replicate (4 - k) '❓' = canonMarks (k + 1) := by
  unfold canonMarks
  rw [show 5 - (k + 1) = 4 - k by omega, List.replicate_succ']
  simp

theorem mem_canonMarks {c : Char} {k : Nat} (h : c ∈ canonMarks k) :
    c = '✅' ∨ c = '❓' := by
  unfold canonMarks at h
  rcases List.mem_append.mp h with h1 | h1
  · left; exact (List.mem_replicate.mp h1).2
  · right; exact (List.mem_replicate.mp h1).2

theorem canonMarks_cons (k : Nat) :
    ∃ c t, canonMarks k = c :: t ∧ c.isWhitespace = false := by
  cases k with
  | zero => exact ⟨'❓', _, rfl, by decide⟩
  | succ j =>
    refine ⟨'✅', List.replicate j '✅' ++ List.replicate (5 - (j + 1)) '❓', ?_, by decide⟩
    unfold canonMarks
    rw [List.replicate_succ]
    rfl

namespace PyStr

theorem takeWhile_append_all {p : Char → Bool} {xs : Str} (ys : Str)
    (h : ∀ x ∈ xs, p x = true) :
    (xs ++ ys).takeWhile p = xs ++ ys.takeWhile p := by
  induction xs with
  | nil => rfl
  | cons a r ih =>
    rw [List.cons_append, List.takeWhile_cons, if_pos (h a (List.mem_cons_self _ _)),
      ih (fun x hx => h x (List.mem_cons_of_mem _ hx))]
    rfl

theorem takeWhile_cons_neg {p : Char → Bool} {y : Char} (ys : Str) (h : p y = false) :
    (y :: ys).takeWhile p = [] := by
  simp [List.takeWhile_cons, h]

end PyStr

theorem joinLines_eq_sJoin (l : Str) (ls : List Str) :
    joinLines (l :: ls) = l ++ sJoin ls := by
  induction ls generalizing l with
  | nil => simp [joinLines, sJoin]
  | cons a as ih =>
    rw [joinLines_cons _ _ (by simp), ih a]
    simp [sJoin]

theorem joinLines_decomp (ls₁ : List Str) (l : Str) (ls₂ : List Str) :
    joinLines (ls₁ ++ l :: ls₂) = pJoin ls₁ ++ (l ++ sJoin ls₂) := by
  induction ls₁ with
  | nil => simpa [pJoin] using joinLines_eq_sJoin l ls₂
  | cons a as ih =>
    rw [List.cons_append, joinLines_cons _ _ (by simp), ih]
    simp [pJoin]

theorem pJoin_length (ls : List Str) :
    (pJoin ls).length = (ls.map (fun l => l.length + 1)).sum := by
  induction ls with
  | nil => rfl
  | cons a as ih =>
    show ((a ++ ['\n']) ++ pJoin as).length = _
    rw [List.length_append, List.length_append, ih]
    simp only [List.map_cons, List.sum_cons, List.length_singleton]

theorem lineStart_eq (w : Nat) (es : List Entry) (i : Nat) :
    (pJoin ((es.take i).map (entryLine w))).length = lineStart w es i := by
  rw [pJoin_length, lineStart, List.map_map]
  rfl

theorem max_name_length_le {m : TeamMember} {roster : List TeamMember}
    (h : m ∈ roster) : m.name.length ≤ max_name_length roster := by
  induction roster with
  | nil => cases h
  | cons a rest ih =>
    rcases List.mem_cons.mp h with h1 | h1
    · subst h1
      exact Nat.le_max_left _ _
    · exact Nat.le_trans (ih h1) (Nat.le_max_right _ _)

theorem replicate_space_absorb (p : Nat) (X : Str) :
    List.replicate p ' ' ++ ' ' :: X = List.replicate (p + 1) ' ' ++ X := by
  rw [List.replicate_succ']
  simp

theorem lineCore_decomp (w : Nat) (name marks : Str) (streak : Nat) :
    lineCore w name marks streak =
      ('`' :: name) ++ (List.replicate (w - name.length + 1) ' ' ++
        (marks ++ ' ' :: streakAnnot streak ++ ['`'])) := by
  unfold lineCore ljust
  rw [← replicate_space_absorb]
  simp [List.append_assoc]

theorem mem_lineCore {c : Char} {w : Nat} {name marks : Str} {streak : Nat}
    (h : c ∈ lineCore w name marks streak) :
    c = '`' ∨ c ∈ name ∨ c = ' ' ∨ c ∈ marks ∨ c ∈ streakAnnot streak := by
  rw [lineCore_decomp] at h
  rcases List.mem_append.mp h with h1 | h1
  · rcases List.mem_cons.mp h1 with h2 | h2
    · left; exact h2
    · right; left; exact h2
  rcases List.mem_append.mp h1 with h2 | h2
  · right; right; left; exact (List.mem_replicate.mp h2).2
  rcases List.mem_append.mp h2 with h3 | h3
  · rcases List.mem_append.mp h3 with h4 | h4
    · right; right; right; left; exact h4
    · rcases List.mem_cons.mp h4 with h5 | h5
      · right; right; left; exact h5
      · right; right; right; right; exact h5
  · rcases List.mem_singleton.mp h3 with h4
    left; exact h4

theorem mem_mkLine {c : Char} {w : Nat} {name marks : Str} {streak : Nat}
    (h : c ∈ mkLine w name marks streak) :
    c = '#' ∨ c = '`' ∨ c ∈ name ∨ c = ' ' ∨ c ∈ marks ∨ c ∈ streakAnnot streak := by
  rcases List.mem_cons.mp h with h1 | h1
  · left; exact h1
  rcases List.mem_cons.mp h1 with h2 | h2
  · right; right; right; left; exact h2
  · right; exact mem_lineCore h2

theorem nl_not_mem_mkLine {w : Nat} {name marks : Str} {streak : Nat}
    (hn : '\n' ∉ name) (hm : '\n' ∉ marks) :
    '\n' ∉ mkLine w name marks streak := by
  intro h
  rcases mem_mkLine h with h1 | h1 | h1 | h1 | h1 | h1
  · cases h1
  · cases h1
  · exact hn h1
  · cases h1
  · exact hm h1
  · exact not_mem_streakAnnot _ (by decide) (by decide) h1

theorem nl_not_mem_canonMarks (k : Nat) : '\n' ∉ canonMarks k := by
  intro h
  rcases mem_canonMarks h with h1 | h1 <;> cases h1

theorem splitLines_renderPost (w : Nat) (es : List Entry) (hne : es ≠ [])
    (hnl : ∀ e ∈ es, '\n' ∉ e.member.name) :
    splitLines (renderPost w es) = es.map (entryLine w) := by
  apply splitLines_joinLines
  · intro hmap
    exact hne (List.map_eq_nil.mp hmap)
  · intro l hl
    rcases List.mem_map.mp hl with ⟨e, he, rfl⟩
    exact nl_not_mem_mkLine (hnl e he) (nl_not_mem_canonMarks _)

theorem occursAtB_single {c : Char} {s : Str} (h : c ∉ s) (j : Nat) :
    occursAtB s [c] j = false := by
  unfold occursAtB
  cases hd : s.drop j with
  | nil => rfl
  | cons b t =>
    have hb : b ∈ s := (List.drop_sublist j s).mem (hd ▸ List.mem_cons_self b t)
    have hcb : (c == b) = false := by
      cases hcb : c == b
      · rfl
      · exact absurd (beq_iff_eq.mp hcb ▸ hb) h
    simp [List.isPrefixOf, hcb]

theorem replaceAll_single_not_mem {c : Char} {s : Str} (new : Str) (h : c ∉ s) :
    replaceAll s [c] new = s :=
  replaceAll_of_no_occ s new (occursAtB_single h)

theorem strip_removeHash_mkLine (w : Nat) (name marks : Str) (streak : Nat)
    (hname : '#' ∉ name) (hmk : '#' ∉ marks) :
    strip (replaceAll (mkLine w name marks streak) ['#'] []) =
      lineCore w name marks streak := by
  have hnc : '#' ∉ (' ' :: lineCore w name marks streak) := by
    intro h
    rcases List.mem_cons.mp h with h1 | h1
    · cases h1
    rcases mem_lineCore h1 with h2 | h2 | h2 | h2 | h2
    · cases h2
    · exact hname h2
    · cases h2
    · exact hmk h2
    · exact not_mem_streakAnnot _ (by decide) (by decide) h2
  rw [show mkLine w name marks streak = '#' :: (' ' :: lineCore w name marks streak) from rfl]
  rw [replaceAll_pos _ _ (by simp) (by simp [List.isPrefixOf])]
  simp only [List.length_singleton, List.drop_succ_cons, List.drop_zero]
  rw [replaceAll_single_not_mem _ hnc]
  rw [List.nil_append, strip_cons_ws _ (by decide)]
  apply strip_eq_self
  · intro c hc
    have hh : (lineCore w name marks streak).head? = some '`' := rfl
    rw [hh] at hc
    cases hc
    decide
  · intro c hc
    rw [show lineCore w name marks streak = ('`' :: ljust name w ++ ' ' :: marks ++
      ' ' :: streakAnnot streak) ++ ['`'] by simp [lineCore, List.append_assoc]] at hc
    rw [List.getLast?_concat] at hc
    cases hc
    decide

theorem hash_not_mem_canonMarks (k : Nat) : '#' ∉ canonMarks k := by
  intro h
  rcases mem_canonMarks h with h1 | h1 <;> cases h1

theorem lineCore_shape (w : Nat) (name marks : Str) (streak : Nat) :
    lineCore w name marks streak =
      ('`' :: name) ++ (' ' :: (List.replicate (w - name.length) ' ' ++
        (marks ++ ' ' :: streakAnnot streak ++ ['`']))) := by
  rw [lineCore_decomp]
  congr 1

theorem findChar_core_space (w : Nat) (name marks : Str) (streak : Nat)
    (hsp : ' ' ∉ name) :
    findChar (lineCore w name marks streak) ' ' = some (name.length + 1) := by
  rw [lineCore_shape]
  have hx : ' ' ∉ ('`' :: name) := by
    intro h
    rcases List.mem_cons.mp h with h1 | h1
    · cases h1
    · exact hsp h1
  have h2 := @findChar_append ('`' :: name)
    (List.replicate (w - name.length) ' ' ++
      (marks ++ ' ' :: streakAnnot streak ++ ['`'])) ' ' hx
  simpa using h2

theorem drop_core_space (w : Nat) (name marks : Str) (streak : Nat) :
    (lineCore w name marks streak).drop (name.length + 1) =
      List.replicate (w - name.length + 1) ' ' ++
        (marks ++ ' ' :: streakAnnot streak ++ ['`']) := by
  rw [lineCore_decomp]
  rw [show name.length + 1 = ('`' :: name).length by simp]
  exact List.drop_left _ _

theorem canonMarks_getLast_not_ws {k : Nat} {c : Char}
    (h : (canonMarks k).getLast? = some c) : c.isWhitespace = false := by
  have hm : c ∈ canonMarks k := by
    rcases List.mem_getLast?_eq_getLast (Option.mem_def.mpr h) with ⟨hne, heq⟩
    rw [heq]
    exact List.getLast_mem hne
  rcases mem_canonMarks hm with h1 | h1 <;> (subst h1; decide)

theorem strip_marks_tail (k streak : Nat) :
    strip (canonMarks k ++ ' ' :: streakAnnot streak ++ ['`']) =
      canonMarks k ++ ' ' :: streakAnnot streak ++ ['`'] := by
  apply strip_eq_self
  · intro c hc
    rcases canonMarks_cons k with ⟨c0, t, hcm, hws⟩
    rw [hcm] at hc
    have hh : (((c0 :: t) ++ ' ' :: streakAnnot streak) ++ ['`']).head? = some c0 := rfl
    rw [hh] at hc
    cases hc
    simp [hws]
  · intro c hc
    rw [List.getLast?_concat] at hc
    cases hc
    decide

theorem marksStreak_eval (w : Nat) (name : Str) (k streak : Nat)
    (hsp : ' ' ∉ name) :
    strip ((lineCore w name (canonMarks k) streak).drop (name.length + 1)) =
      canonMarks k ++ ' ' :: streakAnnot streak ++ ['`'] := by
  rw [drop_core_space, strip_replicate_space, strip_marks_tail]

theorem q_not_mem_done (k : Nat) : '❓' ∉ List.replicate k '✅' := by
  intro h
  cases (List.mem_replicate.mp h).2

theorem findChar_marksStreak_lt (k streak : Nat) (hk : k < 5) :
    findChar (canonMarks k ++ ' ' :: streakAnnot streak ++ ['`']) '❓' = some k := by
  rw [canonMarks_eq_lt hk]
  have h2 := @findChar_append (List.replicate k '✅')
    (List.replicate (4 - k) '❓' ++ (' ' :: streakAnnot streak ++ ['`']))
    '❓' (q_not_mem_done k)
  rw [List.length_replicate] at h2
  rw [show (List.replicate k '✅' ++ '❓' :: List.replicate (4 - k) '❓') ++
      ' ' :: streakAnnot streak ++ ['`'] =
    List.replicate k '✅' ++ '❓' :: (List.replicate (4 - k) '❓' ++
      (' ' :: streakAnnot streak ++ ['`'])) by simp]
  exact h2

theorem findChar_marksStreak_five (streak : Nat) :
    findChar (canonMarks 5 ++ ' ' :: streakAnnot streak ++ ['`']) '❓' = none := by
  apply findChar_eq_none
  intro h
  rcases List.mem_append.mp h with h1 | h1
  · rcases List.mem_append.mp h1 with h2 | h2
    · unfold canonMarks at h2
      rcases List.mem_append.mp h2 with h3 | h3
      · cases (List.mem_replicate.mp h3).2
      · exact absurd rfl (List.mem_replicate.mp h3).1
    · rcases List.mem_cons.mp h2 with h3 | h3
      · cases h3
      · exact not_mem_streakAnnot _ (by decide) (by decide) h3
  · cases List.mem_singleton.mp h1

theorem flip_marksStreak (k streak : Nat) (hk : k < 5) :
    (canonMarks k ++ ' ' :: streakAnnot streak ++ ['`']).take k ++
      '✅' :: (canonMarks k ++ ' ' :: streakAnnot streak ++ ['`']).drop (k + 1) =
    canonMarks (k + 1) ++ ' ' :: streakAnnot streak ++ ['`'] := by
  have hms : canonMarks k ++ ' ' :: streakAnnot streak ++ ['`'] =
      (List.replicate k '✅' ++ ['❓']) ++
        (List.replicate (4 - k) '❓' ++ (' ' :: streakAnnot streak ++ ['`'])) := by
    rw [canonMarks_eq_lt hk]
    simp
  rw [hms]
  have hlen : (List.replicate k '✅' ++ ['❓']).length = k + 1 := by simp
  have htake : ((List.replicate k '✅' ++ ['❓']) ++
      (List.replicate (4 - k) '❓' ++ (' ' :: streakAnnot streak ++ ['`']))).take k =
      List.replicate k '✅' := by
    rw [show (List.replicate k '✅' ++ ['❓']) ++
        (List.replicate (4 - k) '❓' ++ (' ' :: streakAnnot streak ++ ['`'])) =
      List.replicate k '✅' ++ ('❓' :: (List.replicate (4 - k) '❓' ++
        (' ' :: streakAnnot streak ++ ['`']))) by simp]
    exact List.take_left' (by simp)
  have hdrop : ((List.replicate k '✅' ++ ['❓']) ++
      (List.replicate (4 - k) '❓' ++ (' ' :: streakAnnot streak ++ ['`']))).drop (k + 1) =
      List.replicate (4 - k) '❓' ++ (' ' :: streakAnnot streak ++ ['`']) := by
    exact List.drop_left' (by simp)
  rw [htake, hdrop]
  rw [show List.replicate k '✅' ++ '✅' :: (List.replicate (4 - k) '❓' ++
      (' ' :: streakAnnot streak ++ ['`'])) =
    (List.replicate k '✅' ++ '✅' :: List.replicate (4 - k) '❓') ++
      (' ' :: streakAnnot streak ++ ['`']) by simp]
  rw [canonMarks_succ_eq hk]
  simp

theorem strip_takeWhile_flip (k streak : Nat) :
    strip ((canonMarks k ++ ' ' :: streakAnnot streak ++ ['`']).takeWhile
      (fun c => ¬ c = '(')) = canonMarks k := by
  have hcm : ∀ x ∈ canonMarks k, (fun c => decide (¬ c = '(')) x = true := by
    intro x hx
    rcases mem_canonMarks hx with h1 | h1 <;> (subst h1; decide)
  rw [show canonMarks k ++ ' ' :: streakAnnot streak ++ ['`'] =
    canonMarks k ++ (' ' :: (streakAnnot streak ++ ['`'])) by simp]
  rw [takeWhile_append_all _ hcm]
  rw [List.takeWhile_cons, if_pos (by decide)]
  rw [streakAnnot_eq]
  rw [show ('(' :: (['S', 't', 'r', 'e', 'a', 'k', ':', ' '] ++ natStr streak ++
      (' ' :: (if streak = 1 then ['d', 'a', 'y'] else ['d', 'a', 'y', 's'])) ++ [')'])) ++
        ['`'] =
    '(' :: ((['S', 't', 'r', 'e', 'a', 'k', ':', ' '] ++ natStr streak ++
      (' ' :: (if streak = 1 then ['d', 'a', 'y'] else ['d', 'a', 'y', 's'])) ++ [')']) ++
        ['`']) from rfl]
  rw [takeWhile_cons_neg _ (by decide)]
  rw [strip_append_ws _ (by decide)]
  apply strip_eq_self
  · intro c hc
    rcases canonMarks_cons k with ⟨c0, t, hcm2, hws⟩
    rw [hcm2] at hc
    cases hc
    simp [hws]
  · intro c hc
    simp [canonMarks_getLast_not_ws hc]

theorem entryCore_ne_nil (w : Nat) (e : Entry) : entryCore w e ≠ [] := by
  unfold entryCore lineCore
  simp

theorem replaceAll_renderPost (w : Nat) (es : List Entry) (i : Nat) (e e' : Entry)
    (hget : es[i]? = some e)
    (huniq : numOccs (renderPost w es) (entryCore w e) = 1) :
    replaceAll (renderPost w es) (entryCore w e) (entryCore w e') =
      renderPost w (es.set i e') := by
  rcases List.getElem?_eq_some.mp hget with ⟨hi, hei⟩
  have hdecomp : es = es.take i ++ e :: es.drop (i + 1) := by
    conv_lhs => rw [← List.take_append_drop i es]
    congr 1
    rw [List.drop_eq_getElem_cons hi, hei]
  have hmap : es.map (entryLine w) =
      (es.take i).map (entryLine w) ++
        entryLine w e :: (es.drop (i + 1)).map (entryLine w) := by
    conv_lhs => rw [hdecomp]
    simp
  have hcontent : renderPost w es =
      (pJoin ((es.take i).map (entryLine w)) ++ ['#', ' ']) ++
        (entryCore w e ++ sJoin ((es.drop (i + 1)).map (entryLine w))) := by
    unfold renderPost
    rw [hmap, joinLines_decomp]
    show _ = (pJoin ((es.take i).map (entryLine w)) ++ ['#', ' ']) ++
        (entryCore w e ++ sJoin ((es.drop (i + 1)).map (entryLine w)))
    rw [show entryLine w e = ['#', ' '] ++ entryCore w e from rfl]
    simp [List.append_assoc]
  have hocc : occursAtB (renderPost w es) (entryCore w e)
      (pJoin ((es.take i).map (entryLine w)) ++ ['#', ' ']).length = true := by
    rw [hcontent]
    unfold occursAtB
    rw [List.drop_left]
    exact List.isPrefixOf_iff_prefix.mpr (List.prefix_append _ _)
  have honly : ∀ j, occursAtB ((pJoin ((es.take i).map (entryLine w)) ++ ['#', ' ']) ++
      (entryCore w e ++ sJoin ((es.drop (i + 1)).map (entryLine w)))) (entryCore w e) j = true →
      j = (pJoin ((es.take i).map (entryLine w)) ++ ['#', ' ']).length := by
    intro j hj
    rw [← hcontent] at hj
    exact numOccs_unique (entryCore_ne_nil w e) huniq hj hocc
  rw [hcontent, replaceAll_unique _ _ _ (entryCore_ne_nil w e) honly]
  have hset : es.set i e' = es.take i ++ e' :: es.drop (i + 1) :=
    List.set_eq_take_cons_drop e' hi
  unfold renderPost
  rw [hset]
  rw [show (es.take i ++ e' :: es.drop (i + 1)).map (entryLine w) =
    (es.take i).map (entryLine w) ++
      entryLine w e' :: (es.drop (i + 1)).map (entryLine w) by simp]
  rw [joinLines_decomp]
  rw [show entryLine w e' = ['#', ' '] ++ entryCore w e' from rfl]
  simp [List.append_assoc]

theorem update_post_render (w : Nat) (es : List Entry) (i : Nat) (e : Entry)
    (s : Nat) (hget : es[i]? = some e)
    (hname : '#' ∉ e.member.name) (hsp : ' ' ∉ e.member.name)
    (hk : e.k ≤ 5)
    (hfind : (splitLines (renderPost w es)).find? (fun l => isSubstr e.member.name l)
      = some (entryLine w e))
    (huniq : numOccs (renderPost w es) (entryCore w e) = 1) :
    update_post w e.member.name s (renderPost w es) =
      if e.k < 5 then renderPost w (es.set i ⟨e.member, e.k + 1, s⟩)
      else renderPost w es := by
  unfold update_post
  rw [hfind]
  dsimp only
  rw [show strip (replaceAll (entryLine w e) ['#'] []) =
    lineCore w e.member.name (canonMarks e.k) e.s from
    strip_removeHash_mkLine _ _ _ _ hname (hash_not_mem_canonMarks _)]
  rw [findChar_core_space _ _ _ _ hsp]
  dsimp only
  rw [marksStreak_eval _ _ _ _ hsp]
  by_cases hlt : e.k < 5
  · rw [findChar_marksStreak_lt _ _ hlt]
    dsimp only
    rw [flip_marksStreak _ _ hlt]
    rw [strip_takeWhile_flip]
    rw [if_pos hlt]
    rw [show ('`' :: ljust e.member.name w ++ ' ' :: canonMarks (e.k + 1) ++
      ' ' :: streakAnnot s ++ ['`']) = entryCore w ⟨e.member, e.k + 1, s⟩ from rfl]
    exact replaceAll_renderPost w es i e _ hget huniq
  · have h5 : e.k = 5 := by omega
    rw [h5, findChar_marksStreak_five]
    dsimp only
    rw [if_neg (show ¬ (5 : Nat) < 5 by omega)]

theorem mkLine_shape (w : Nat) (name marks : Str) (streak : Nat) :
    mkLine w name marks streak = ('#' :: ' ' :: '`' :: ljust name w ++ [' ']) ++
      (marks ++ (' ' :: streakAnnot streak ++ ['`'])) := by
  unfold mkLine lineCore
  simp [List.append_assoc]

theorem not_mem_padded_head {w : Nat} {name : Str} (c : Char)
    (hc1 : ¬ c = '#') (hc2 : ¬ c = ' ') (hc3 : ¬ c = '`') (hn : c ∉ name) :
    c ∉ ('#' :: ' ' :: '`' :: ljust name w ++ [' ']) := by
  intro h
  rcases List.mem_append.mp h with h1 | h1
  · rcases List.mem_cons.mp h1 with h2 | h2
    · exact hc1 h2
    rcases List.mem_cons.mp h2 with h3 | h3
    · exact hc2 h3
    rcases List.mem_cons.mp h3 with h4 | h4
    · exact hc3 h4
    rcases List.mem_append.mp h4 with h5 | h5
    · exact hn h5
    · exact hc2 (List.mem_replicate.mp h5).2
  · exact hc2 (List.mem_singleton.mp h1)

theorem extractMarks_entryLine (w : Nat) (e : Entry)
    (hv : '✅' ∉ e.member.name) (hq : '❓' ∉ e.member.name) (hk : e.k ≤ 5) :
    extractMarks (entryLine w e) = canonMarks e.k := by
  unfold extractMarks entryLine
  rw [mkLine_shape]
  by_cases hz : e.k = 0
  · have hnv : '✅' ∉ ('#' :: ' ' :: '`' :: ljust e.member.name w ++ [' ']) ++
        (canonMarks e.k ++ (' ' :: streakAnnot e.s ++ ['`'])) := by
      intro h
      rcases List.mem_append.mp h with h1 | h1
      · exact not_mem_padded_head _ (by decide) (by decide) (by decide) hv h1
      rcases List.mem_append.mp h1 with h2 | h2
      · rw [hz] at h2
        unfold canonMarks at h2
        rcases List.mem_append.mp h2 with h3 | h3
        · exact absurd rfl (List.mem_replicate.mp h3).1
        · cases (List.mem_replicate.mp h3).2
      rcases List.mem_cons.mp h2 with h3 | h3
      · cases h3
      rcases List.mem_append.mp h3 with h4 | h4
      · exact not_mem_streakAnnot _ (by decide) (by decide) h4
      · cases List.mem_singleton.mp h4
    rw [findChar_eq_none hnv]
    have hq5 : canonMarks e.k = '❓' :: List.replicate 4 '❓' := by
      rw [hz]
      rfl
    rw [show ('#' :: ' ' :: '`' :: ljust e.member.name w ++ [' ']) ++
        (canonMarks e.k ++ (' ' :: streakAnnot e.s ++ ['`'])) =
      ('#' :: ' ' :: '`' :: ljust e.member.name w ++ [' ']) ++
        '❓' :: (List.replicate 4 '❓' ++ (' ' :: streakAnnot e.s ++ ['`'])) by
      rw [hq5]; simp]
    rw [findChar_append (not_mem_padded_head _ (by decide) (by decide) (by decide) hq)]
    dsimp only
    rw [List.drop_left' rfl]
    rw [hq5]
    show ('❓' :: (List.replicate 4 '❓' ++ (' ' :: streakAnnot e.s ++ ['`']))).take 5 =
      '❓' :: List.replicate 4 '❓'
    rw [show ('❓' :: (List.replicate 4 '❓' ++ (' ' :: streakAnnot e.s ++ ['`']))) =
      ('❓' :: List.replicate 4 '❓') ++ (' ' :: streakAnnot e.s ++ ['`']) by simp]
    exact List.take_left' (by simp)
  · rcases Nat.exists_eq_succ_of_ne_zero hz with ⟨j, hj⟩
    have hcm : canonMarks e.k = '✅' :: (List.replicate j '✅' ++ List.replicate (5 - e.k) '❓') := by
      rw [hj]
      unfold canonMarks
      rw [List.replicate_succ]
      simp
    rw [show ('#' :: ' ' :: '`' :: ljust e.member.name w ++ [' ']) ++
        (canonMarks e.k ++ (' ' :: streakAnnot e.s ++ ['`'])) =
      ('#' :: ' ' :: '`' :: ljust e.member.name w ++ [' ']) ++
        '✅' :: ((List.replicate j '✅' ++ List.replicate (5 - e.k) '❓') ++
          (' ' :: streakAnnot e.s ++ ['`'])) by rw [hcm]; simp]
    rw [findChar_append (not_mem_padded_head _ (by decide) (by decide) (by decide) hv)]
    dsimp only
    rw [List.drop_left' rfl]
    rw [show ('✅' :: ((List.replicate j '✅' ++ List.replicate (5 - e.k) '❓') ++
        (' ' :: streakAnnot e.s ++ ['`']))) =
      canonMarks e.k ++ (' ' :: streakAnnot e.s ++ ['`']) by rw [hcm]; simp]
    exact List.take_left' (canonMarks_length hk)

theorem rebuildRender_renderPost (w : Nat) (es : List Entry) (db : Nat → Nat)
    (hnl : ∀ e ∈ es, '\n' ∉ e.member.name ∧ '✅' ∉ e.member.name ∧ '❓' ∉ e.member.name)
    (hk : ∀ e ∈ es, e.k ≤ 5)
    (hfind : ∀ e ∈ es, (splitLines (renderPost w es)).find? (fun l => isSubstr e.member.name l)
      = some (entryLine w e)) :
    rebuildRender w db (es.map (fun e => e.member)) (renderPost w es) =
      renderPost w (es.map (fun e => ⟨e.member, e.k, db e.member.discord_id⟩)) := by
  unfold rebuildRender renderPost
  rw [List.map_map, List.map_map]
  congr 1
  apply List.map_congr_left
  intro e he
  show mkLine w e.member.name (memberMarks (joinLines (es.map (entryLine w))) e.member.name)
      (db e.member.discord_id) = _
  unfold memberMarks
  rw [show joinLines (es.map (entryLine w)) = renderPost w es from rfl, hfind e he]
  dsimp only
  rw [extractMarks_entryLine w e (hnl e he).2.1 (hnl e he).2.2 (hk e he)]
  rfl

theorem goodNameB_spec {nm : Str} (h : goodNameB nm = true) :
    '\n' ∉ nm ∧ '#' ∉ nm ∧ ' ' ∉ nm ∧ '✅' ∉ nm ∧ '❓' ∉ nm := by
  unfold goodNameB at h
  simp only [Bool.and_eq_true, decide_eq_true_eq] at h
  exact ⟨h.1.1.1.1, h.1.1.1.2, h.1.1.2, h.1.2, h.2⟩

theorem goodEntriesB_spec {w : Nat} {es : List Entry} (h : goodEntriesB w es = true) :
    ∀ e ∈ es, goodNameB e.member.name = true ∧ e.member.name.length ≤ w ∧ e.k ≤ 5 := by
  rw [goodEntriesB, List.all_eq_true] at h
  intro e he
  have h2 := h e he
  simp only [Bool.and_eq_true, decide_eq_true_eq] at h2
  exact ⟨h2.1.1, h2.1.2, h2.2⟩

theorem goodCallB_spec {w : Nat} {es : List Entry} {i : Nat}
    (h : goodCallB w es i = true) :
    ∃ e, es[i]? = some e ∧
      (splitLines (renderPost w es)).find? (fun l => isSubstr e.member.name l) =
        some (entryLine w e) ∧
      numOccs (renderPost w es) (entryCore w e) = 1 := by
  unfold goodCallB at h
  cases hg : es[i]? with
  | none => rw [hg] at h; cases h
  | some e =>
    rw [hg] at h
    simp only [Bool.and_eq_true, decide_eq_true_eq] at h
    exact ⟨e, rfl, h.1, h.2⟩

theorem callName_eq {es : List Entry} {i : Nat} {e : Entry} (h : es[i]? = some e) :
    callName (es.map (fun x => x.member.name)) i = e.member.name := by
  unfold callName
  rw [List.getD_eq_getElem?_getD, List.getElem?_map, h]
  rfl

theorem stepEntry_cases (es : List Entry) (p : Nat × Nat) (i : Nat) (e : Entry)
    (h : es[i]? = some e) :
    ((stepEntry es p)[i]? = some e) ∨
      (i = p.1 ∧ e.k < 5 ∧ (stepEntry es p)[i]? = some ⟨e.member, e.k + 1, p.2⟩) := by
  unfold stepEntry
  cases hg : es[p.1]? with
  | none => left; exact h
  | some e0 =>
    dsimp only
    by_cases hlt : e0.k < 5
    · rw [if_pos hlt]
      by_cases hip : i = p.1
      · right
        subst hip
        rw [hg] at h
        cases h
        refine ⟨rfl, hlt, ?_⟩
        rw [List.getElem?_set]
        rw [if_pos rfl, if_pos (List.getElem?_eq_some.mp hg).1]
      · left
        rw [List.getElem?_set, if_neg (fun hh => hip hh.symm)]
        exact h
    · rw [if_neg hlt]
      left
      exact h

theorem stepEntry_length (es : List Entry) (p : Nat × Nat) :
    (stepEntry es p).length = es.length := by
  unfold stepEntry
  cases hg : es[p.1]? with
  | none => rfl
  | some e0 =>
    dsimp only
    by_cases hlt : e0.k < 5 <;> simp [hlt]

theorem stepEntry_members (es : List Entry) (p : Nat × Nat) :
    (stepEntry es p).map (fun x => x.member) = es.map (fun x => x.member) := by
  unfold stepEntry
  cases hg : es[p.1]? with
  | none => rfl
  | some e0 =>
    dsimp only
    by_cases hlt : e0.k < 5
    · rw [if_pos hlt]
      apply List.ext_getElem?
      intro n
      rw [List.getElem?_map, List.getElem?_map, List.getElem?_set]
      by_cases hn : p.1 = n
      · subst hn
        rw [if_pos rfl]
        by_cases hb : p.1 < es.length
        · rw [if_pos hb, hg]
          rfl
        · rw [if_neg hb]
          rw [List.getElem?_eq_none (Nat.le_of_not_lt hb)]
      · rw [if_neg hn]
    · rw [if_neg hlt]

theorem stepEntry_names (es : List Entry) (p : Nat × Nat) :
    (stepEntry es p).map (fun x => x.member.name) = es.map (fun x => x.member.name) := by
  have h := congrArg (List.map (fun m : TeamMember => m.name)) (stepEntry_members es p)
  rw [List.map_map, List.map_map] at h
  exact h

theorem goodEntriesB_stepEntry {w : Nat} (es : List Entry) (p : Nat × Nat)
    (h : goodEntriesB w es = true) : goodEntriesB w (stepEntry es p) = true := by
  unfold stepEntry
  cases hg : es[p.1]? with
  | none => exact h
  | some e0 =>
    dsimp only
    by_cases hlt : e0.k < 5
    · rw [if_pos hlt]
      rw [goodEntriesB, List.all_eq_true] at h ⊢
      intro x hx
      rcases List.mem_or_eq_of_mem_set hx with hx1 | hx1
      · exact h x hx1
      · have h0 := h e0 (List.getElem?_mem hg)
        simp only [Bool.and_eq_true, decide_eq_true_eq] at h0 ⊢
        subst hx1
        exact ⟨⟨h0.1.1, h0.1.2⟩, show e0.k + 1 ≤ 5 by omega⟩
    · rw [if_neg hlt]
      exact h

theorem count_entryLine (w : Nat) (e : Entry) (hv : '✅' ∉ e.member.name)
    (hk : e.k ≤ 5) : (entryLine w e).count '✅' = e.k := by
  unfold entryLine
  rw [mkLine_shape]
  have hA : ('#' :: ' ' :: '`' :: ljust e.member.name w).count '✅' = 0 := by
    rw [List.count_eq_zero]
    intro hm
    rcases List.mem_cons.mp hm with h1 | h1
    · cases h1
    rcases List.mem_cons.mp h1 with h2 | h2
    · cases h2
    rcases List.mem_cons.mp h2 with h3 | h3
    · cases h3
    unfold ljust at h3
    rcases List.mem_append.mp h3 with h4 | h4
    · exact hv h4
    · cases (List.mem_replicate.mp h4).2
  have hS : ([' '] : Str).count '✅' = 0 := by decide
  have hT : ((' ' : Char) :: streakAnnot e.s ++ ['`']).count '✅' = 0 := by
    rw [List.count_eq_zero]
    intro hm
    rcases List.mem_append.mp hm with h1 | h1
    · rcases List.mem_cons.mp h1 with h2 | h2
      · cases h2
      · exact not_mem_streakAnnot _ (by decide) (by decide) h2
    · cases List.mem_singleton.mp h1
  rw [List.count_append, List.count_append, List.count_append, hA, hS, hT,
    canonMarks_count hk]
  omega

theorem applyCalls_renderPost (w : Nat) (es : List Entry) (calls : List (Nat × Nat))
    (hes : goodEntriesB w es = true)
    (hgood : ∀ t (h : t < calls.length),
      goodCallB w (runEntries es (calls.take t)) (calls.get ⟨t, h⟩).1 = true) :
    applyCalls w (es.map (fun x => x.member.name)) (renderPost w es) calls =
      renderPost w (runEntries es calls) := by
  induction calls generalizing es with
  | nil => rfl
  | cons p rest ih =>
    have hg0 : goodCallB w es p.1 = true := hgood 0 (by simp)
    rcases goodCallB_spec hg0 with ⟨e, hget, hfind, huniq⟩
    have hspec := goodEntriesB_spec hes e (List.getElem?_mem hget)
    rcases goodNameB_spec hspec.1 with ⟨hnl, hhash, hsp, hv, hq⟩
    have hstep : update_post w (callName (es.map (fun x => x.member.name)) p.1) p.2
        (renderPost w es) = renderPost w (stepEntry es p) := by
      rw [callName_eq hget]
      rw [update_post_render w es p.1 e p.2 hget hhash hsp hspec.2.2 hfind huniq]
      unfold stepEntry
      rw [hget]
      dsimp only
      by_cases hlt : e.k < 5
      · rw [if_pos hlt, if_pos hlt]
      · rw [if_neg hlt, if_neg hlt]
    unfold applyCalls
    simp only [List.foldl_cons]
    rw [hstep]
    rw [show es.map (fun x => x.member.name) =
      (stepEntry es p).map (fun x => x.member.name) from (stepEntry_names es p).symm]
    rw [show runEntries es (p :: rest) = runEntries (stepEntry es p) rest from rfl]
    exact ih (stepEntry es p) (goodEntriesB_stepEntry es p hes)
      (fun t h => hgood (t + 1) (by simpa using h))

theorem runEntries_getElem? (es : List Entry) (calls : List (Nat × Nat)) (i : Nat)
    (e : Entry) (h : es[i]? = some e) :
    ∃ e', (runEntries es calls)[i]? = some e' ∧ e'.member = e.member ∧
      e.k ≤ e'.k ∧ (e.k ≤ 5 → e'.k ≤ 5) := by
  induction calls generalizing es e with
  | nil => exact ⟨e, h, rfl, Nat.le_refl _, id⟩
  | cons p rest ih =>
    rcases stepEntry_cases es p i e h with h1 | ⟨hip, hlt, h1⟩
    · rcases ih _ _ h1 with ⟨e', he1, he2, he3, he4⟩
      exact ⟨e', he1, he2, he3, he4⟩
    · rcases ih _ _ h1 with ⟨e', he1, he2, he3, he4⟩
      refine ⟨e', he1, he2, ?_, ?_⟩
      · exact Nat.le_trans (Nat.le_succ _) he3
      · intro _
        exact he4 (show e.k + 1 ≤ 5 by omega)

theorem runEntries_length (es : List Entry) (calls : List (Nat × Nat)) :
    (runEntries es calls).length = es.length := by
  induction calls generalizing es with
  | nil => rfl
  | cons p rest ih =>
    rw [show runEntries es (p :: rest) = runEntries (stepEntry es p) rest from rfl,
      ih (stepEntry es p), stepEntry_length]

theorem goodEntriesB_runEntries {w : Nat} (es : List Entry) (calls : List (Nat × Nat))
    (h : goodEntriesB w es = true) : goodEntriesB w (runEntries es calls) = true := by
  induction calls generalizing es with
  | nil => exact h
  | cons p rest ih =>
    exact ih (stepEntry es p) (goodEntriesB_stepEntry es p h)

theorem splitLines_renderPost_getElem? (w : Nat) (es : List Entry) (i : Nat)
    (e : Entry) (hget : es[i]? = some e) (hes : goodEntriesB w es = true) :
    (splitLines (renderPost w es))[i]? = some (entryLine w e) := by
  rw [splitLines_renderPost w es (by rintro rfl; cases i <;> simp at hget)
    (fun x hx => (goodNameB_spec (goodEntriesB_spec hes x hx).1).1)]
  rw [List.getElem?_map, hget]
  rfl

theorem has_minimum_renderPost (w : Nat) (es : List Entry) (i : Nat) (e : Entry)
    (n : Nat) (hget : es[i]? = some e)
    (hw : e.member.name.length ≤ w) (hk : e.k ≤ 5)
    (hfind : findSub (renderPost w es) e.member.name = some (lineStart w es i + 3)) :
    has_minimum_checkmarks w (renderPost w es) e.member.name n = decide (n ≤ e.k) := by
  unfold has_minimum_checkmarks
  rw [hfind]
  dsimp only
  rcases List.getElem?_eq_some.mp hget with ⟨hi, hei⟩
  have hdecomp : es = es.take i ++ e :: es.drop (i + 1) := by
    conv_lhs => rw [← List.take_append_drop i es]
    congr 1
    rw [List.drop_eq_getElem_cons hi, hei]
  have hcontent : renderPost w es =
      pJoin ((es.take i).map (entryLine w)) ++
        (entryLine w e ++ sJoin ((es.drop (i + 1)).map (entryLine w))) := by
    unfold renderPost
    conv_lhs => rw [hdecomp]
    rw [show (es.take i ++ e :: es.drop (i + 1)).map (entryLine w) =
      (es.take i).map (entryLine w) ++
        entryLine w e :: (es.drop (i + 1)).map (entryLine w) by simp]
    exact joinLines_decomp _ _ _
  have hdrop : (renderPost w es).drop (lineStart w es i + 3 + w + 1) =
      canonMarks e.k ++ ((' ' :: streakAnnot e.s ++ ['`']) ++
        sJoin ((es.drop (i + 1)).map (entryLine w))) := by
    rw [hcontent]
    rw [show lineStart w es i + 3 + w + 1 =
      (pJoin ((es.take i).map (entryLine w))).length + (w + 4) by
      rw [lineStart_eq]; omega]
    rw [List.drop_append]
    rw [show entryLine w e ++ sJoin ((es.drop (i + 1)).map (entryLine w)) =
      ('#' :: ' ' :: '`' :: ljust e.member.name w ++ [' ']) ++
        (canonMarks e.k ++ ((' ' :: streakAnnot e.s ++ ['`']) ++
          sJoin ((es.drop (i + 1)).map (entryLine w)))) by
      rw [entryLine, mkLine_shape]; simp]
    exact List.drop_left' (by
      simp only [List.length_append, List.length_cons, List.length_singleton,
        List.length_nil]
      rw [ljust_length hw])
  rw [hdrop]
  rw [show canonMarks e.k ++ ((' ' :: streakAnnot e.s ++ ['`']) ++
      sJoin ((es.drop (i + 1)).map (entryLine w))) =
    canonMarks e.k ++ ((' ' :: streakAnnot e.s ++ ['`']) ++
      sJoin ((es.drop (i + 1)).map (entryLine w))) from rfl]
  rw [List.take_left' (canonMarks_length hk), canonMarks_count hk]

theorem reset_streaks_not_mem (w : Nat) (content : Str) (roster : List TeamMember)
    (db : Nat → Nat) (id : Nat)
    (h : id ∉ roster.map (fun x => x.discord_id)) :
    reset_streaks w content roster db id = db id := by
  induction roster generalizing db with
  | nil => rfl
  | cons a rest ih =>
    have hne : id ≠ a.discord_id := fun hh => h (by simp [hh])
    show reset_streaks w content rest _ id = db id
    rw [ih _ (fun hh => h (List.mem_cons_of_mem _ hh))]
    by_cases hh : has_minimum_checkmarks w content a.name 5 <;>
      simp [hh, update_streak, hne]

theorem reset_streaks_apply (w : Nat) (content : Str) (roster : List TeamMember)
    (db : Nat → Nat) (m : TeamMember) (hm : m ∈ roster)
    (hnodup : (roster.map (fun x => x.discord_id)).Nodup) :
    reset_streaks w content roster db m.discord_id =
      if has_minimum_checkmarks w content m.name 5 then db m.discord_id else 0 := by
  induction roster generalizing db with
  | nil => cases hm
  | cons a rest ih =>
    rw [List.map_cons, List.nodup_cons] at hnodup
    show reset_streaks w content rest
      (if ¬ has_minimum_checkmarks w content a.name 5 then
        update_streak db a.discord_id 0 else db) m.discord_id = _
    rcases List.mem_cons.mp hm with h1 | h1
    · subst h1
      rw [reset_streaks_not_mem _ _ _ _ _ hnodup.1]
      by_cases hh : has_minimum_checkmarks w content m.name 5
      · rw [if_pos hh, if_neg (by simp [hh])]
      · rw [if_neg hh, if_pos (by simp [hh])]
        simp [update_streak]
    · have hne : m.discord_id ≠ a.discord_id := by
        intro hh
        exact hnodup.1 (hh ▸ List.mem_map.mpr ⟨m, h1, rfl⟩)
      rw [ih _ h1 hnodup.2]
      by_cases hh : has_minimum_checkmarks w content a.name 5 <;>
        simp [hh, update_streak, hne]

theorem nl_not_mem_fiveQ : '\n' ∉ fiveQ := by
  intro h
  cases (List.mem_replicate.mp h).2

theorem nl_not_mem_extractMarks {l : Str} (hl : '\n' ∉ l) :
    '\n' ∉ extractMarks l := by
  unfold extractMarks
  cases h1 : findChar l '✅' with
  | some i =>
    intro hm
    exact hl ((List.drop_sublist _ _).mem ((List.take_sublist _ _).mem hm))
  | none =>
    cases h2 : findChar l '❓' with
    | some j =>
      intro hm
      exact hl ((List.drop_sublist _ _).mem ((List.take_sublist _ _).mem hm))
    | none => exact nl_not_mem_fiveQ

theorem nl_not_mem_memberMarks (c : Str) (name : Str) :
    '\n' ∉ memberMarks c name := by
  unfold memberMarks
  cases h : (splitLines c).find? (fun l => isSubstr name l) with
  | none => exact nl_not_mem_fiveQ
  | some l =>
    exact nl_not_mem_extractMarks (no_nl_of_mem_splitLines (List.mem_of_find?_eq_some h))

theorem splitLines_renderInit (w : Nat) (db : Nat → Nat) (roster : List TeamMember)
    (hne : roster ≠ []) (hnl : ∀ m ∈ roster, '\n' ∉ m.name) :
    splitLines (renderInit w db roster) =
      roster.map (fun m => mkLine w m.name fiveQ (db m.discord_id)) := by
  apply splitLines_joinLines
  · intro hmap
    exact hne (List.map_eq_nil_iff.mp hmap)
  · intro l hl
    rcases List.mem_map.mp hl with ⟨m, hm, rfl⟩
    exact nl_not_mem_mkLine (hnl m hm) nl_not_mem_fiveQ

theorem splitLines_rebuildRender (w : Nat) (db : Nat → Nat)
    (roster : List TeamMember) (c : Str)
    (hne : roster ≠ []) (hnl : ∀ m ∈ roster, '\n' ∉ m.name) :
    splitLines (rebuildRender w db roster c) =
      roster.map (fun m => mkLine w m.name (memberMarks c m.name) (db m.discord_id)) := by
  apply splitLines_joinLines
  · intro hmap
    exact hne (List.map_eq_nil_iff.mp hmap)
  · intro l hl
    rcases List.mem_map.mp hl with ⟨m, hm, rfl⟩
    exact nl_not_mem_mkLine (hnl m hm) (nl_not_mem_memberMarks c m.name)

theorem renderInit_ne_nil (w : Nat) (db : Nat → Nat) (roster : List TeamMember)
    (h : roster ≠ []) : renderInit w db roster ≠ [] := by
  unfold renderInit
  cases roster with
  | nil => cases h rfl
  | cons m rest =>
    rw [List.map_cons, joinLines_eq_sJoin]
    simp [mkLine]

theorem rebuild_post_some (w : Nat) (db : Nat → Nat) (roster : List TeamMember)
    (c : Str) (h : roster ≠ []) :
    rebuild_post w db roster (some c) = (some (rebuildRender w db roster c), false) := by
  cases roster with
  | nil => cases h rfl
  | cons m rest => rfl

theorem mkLine_take_prefix (w : Nat) (name marks : Str) (streak : Nat)
    (hw : name.length ≤ w) :
    (mkLine w name marks streak).take (w + 4) =
      '#' :: ' ' :: '`' :: ljust name w ++ [' '] := by
  rw [mkLine_shape]
  apply List.take_left'
  simp only [List.length_append, List.length_cons, List.length_singleton, List.length_nil]
  rw [ljust_length hw]

theorem mem_chain_marksStreak {x : Char} {l : Str} {i : Nat}
    (h : x ∈ strip ((strip (replaceAll l ['#'] [])).drop i)) : x ∈ l :=
  mem_of_mem_replaceAll_nil (mem_of_mem_strip ((List.drop_sublist _ _).mem (mem_of_mem_strip h)))

/-- Claim C1 (counter-evidence): `update_post` locates the line to edit by a
bare substring search (`member.name in line`), so when one member's name is
a substring of another member's line the wrong line is edited.  On the
two-member post for `Bob` and `Bo`, a check-in for `Bo` rewrites `Bob`'s
line (line 0) — relabelling it with `Bo`'s name and streak — while `Bo`'s
own line (line 1) is left untouched, contradicting the claim that only the
target member's own line ever changes. -/
theorem claim_C1_substring_collision_edits_wrong_line :
    (splitLines (update_post 3 ("Bo".data) 1 bobBoContent))[0]? ≠
      (splitLines bobBoContent)[0]? ∧
    (splitLines (update_post 3 ("Bo".data) 1 bobBoContent))[0]? =
      some (mkLine 3 ("Bo".data) ('✅' :: List.replicate 4 '❓') 1) ∧
    (splitLines (update_post 3 ("Bo".data) 1 bobBoContent))[1]? =
      (splitLines bobBoContent)[1]? ∧
    (splitLines bobBoContent)[0]? = some (mkLine 3 ("Bob".data) fiveQ 0) ∧
    (splitLines bobBoContent)[1]? = some (mkLine 3 ("Bo".data) fiveQ 0) := by
  refine ⟨by decide, by decide, by decide, by decide, by decide⟩

/-- Claim C2 (counterexample): with a persisted post id for the current
iso-week and a fetch that fails, `initialize_post` returns the error: the
failure is not caught, no new post is created and nothing is persisted,
contradicting the claimed treat-as-`NoPost` recovery. -/
theorem claim_C2_fetch_failure_not_caught :
    initialize_post (some 42) (some 7) 7
      (fun _ => (Except.error () : Except Unit (Nat × Str))) 5 zeroDb twoRoster 99 =
      Except.error () ∧
    initialize_post (some 42) (some 7) 7
      (fun _ => (Except.error () : Except Unit (Nat × Str))) 5 zeroDb twoRoster 99 ≠
      Except.ok ⟨some (99, renderInit 5 zeroDb twoRoster), some (99, 7)⟩ := by
  constructor
  · rfl
  · intro h
    exact Except.noConfusion (show (Except.error () : Except Unit InitResult) =
      Except.ok ⟨some (99, renderInit 5 zeroDb twoRoster), some (99, 7)⟩ from h)

/-- Claim C2 (amended): in `initialize_post`, when a persisted post id
exists and the persisted week matches the current week but the fetch of
the post fails, the `channel.fetch_message` call has no exception handler,
so the error propagates to the caller unchanged and no new post is created
or persisted. -/
theorem claim_C2_amended_fetch_failure_propagates {ε : Type} (pid wk w newId : Nat)
    (db : Nat → Nat) (roster : List TeamMember) (e : ε)
    (fetch : Nat → Except ε (Nat × Str)) (hfail : fetch pid = .error e) :
    initialize_post (some pid) (some wk) wk fetch w db roster newId = .error e := by
  unfold initialize_post
  dsimp only
  rw [if_pos rfl, hfail]
  rfl

/-- Witness for the amended C2 theorem at a concrete input. -/
theorem claim_C2_amended_witness :
    initialize_post (some 42) (some 7) 7
      (fun _ => (Except.error 0 : Except Nat (Nat × Str))) 5 zeroDb twoRoster 99 =
      Except.error 0 :=
  claim_C2_amended_fetch_failure_propagates 42 7 5 99 zeroDb twoRoster 0 _ rfl

/-- Claim C3 (amended): `record_checkin` (`update_post`) is a silent
no-op in both recoverable situations as the code realises them: when no
line of the post contains the member's name (the first `match` finds
nothing), and when the line the code locates — the first line containing
the name — has no pending `❓` symbol left; in either case the returned
content is exactly the input content, and the function is total, so no
error is raised.  For a fully-checked-in member this no-op is guaranteed
only when the name lookup resolves to that member's own line; the
substring collision exhibited in the counterexample defeats it. -/
theorem claim_C3_record_checkin_noop (w s : Nat) (name content : Str) :
    ((splitLines content).find? (fun l => isSubstr name l) = none →
      update_post w name s content = content) ∧
    (∀ l, (splitLines content).find? (fun l => isSubstr name l) = some l →
      '❓' ∉ l → update_post w name s content = content) := by
  constructor
  · intro h
    unfold update_post
    rw [h]
  · intro l hfind hq
    unfold update_post
    rw [hfind]
    dsimp only
    cases hf : findChar (strip (replaceAll l ['#'] [])) ' ' with
    | some i =>
      dsimp only
      rw [findChar_eq_none (fun hm => hq (mem_chain_marksStreak hm))]
    | none =>
      dsimp only
      rw [findChar_eq_none (fun hm => hq (mem_chain_marksStreak hm))]

/-- Witness for C3: a check-in for an unknown member (`Zed`) and for the
fully-checked-in member (`Alice`, five done marks, so her line holds no
pending symbol) both leave a concrete two-member post byte-identical. -/
theorem claim_C3_witness :
    update_post 5 ("Zed".data) 3 (renderPost 5 c7Entries) = renderPost 5 c7Entries ∧
    update_post 5 ("Alice".data) 3 (renderPost 5 c7Entries) = renderPost 5 c7Entries := by
  constructor
  · exact (claim_C3_record_checkin_noop 5 3 ("Zed".data) (renderPost 5 c7Entries)).1
      (by decide)
  · exact (claim_C3_record_checkin_noop 5 3 ("Alice".data) (renderPost 5 c7Entries)).2
      (entryLine 5 ⟨⟨1, "Alice".data⟩, 5, 4⟩) (by decide) (by decide)

/-- Claim C3 (counterexample to the original universal statement): on the
post rendering `Bob` all-pending and `Bo` fully checked in, `Bo`'s own
line (index 1) holds no pending symbol at all, yet `record_checkin` for
`Bo` is not a no-op — the bare-substring lookup lands on `Bob`'s line,
which still has pending slots, and the content changes. -/
theorem claim_C3_counterexample :
    (splitLines (renderPost 3 c3CollEntries))[1]? =
      some (entryLine 3 ⟨⟨2, "Bo".data⟩, 5, 0⟩) ∧
    '❓' ∉ entryLine 3 ⟨⟨2, "Bo".data⟩, 5, 0⟩ ∧
    update_post 3 ("Bo".data) 1 (renderPost 3 c3CollEntries) ≠
      renderPost 3 c3CollEntries := by
  refine ⟨by decide, by decide, by decide⟩

/-- Claim C9: `load_weekly_post_data` tolerates the absence of the state
file: on a first run (no file) it yields `None` for both the post id and
the timestamp and writes an empty record, and loading again from the file
it just wrote succeeds with the same `None` values — no failure in either
case (the function is total). -/
theorem claim_C9_load_tolerates_absence :
    load_weekly_post_data none = ((none, none), some ⟨none, none⟩) ∧
    load_weekly_post_data (load_weekly_post_data none).2 =
      ((none, none), some ⟨none, none⟩) :=
  ⟨rfl, rfl⟩

/-- Claim C10: the edge behaviour of `rebuild_post`: with a non-empty
roster and no live post it creates a post holding a single line — the
first roster member only, five pending marks, that member's stored streak —
and reports that the new post id was persisted; with an empty roster it
ends with no live post and persists nothing. -/
theorem claim_C10_rebuild_edges (w : Nat) (db : Nat → Nat) (m : TeamMember)
    (rest : List TeamMember) (post : Option Str) :
    rebuild_post w db (m :: rest) none =
      (some (mkLine w m.name fiveQ (db m.discord_id)), true) ∧
    rebuild_post w db [] post = (none, false) :=
  ⟨rfl, rfl⟩

/-- Claim C4 (counterexample): `rebuild_post` is not idempotent for every
roster and post state.  With the roster `CAB`, `AB`, `B␣␣` (each name a
substring of the previous member's rendered line) and a live post where
`CAB` has one done mark, the first rebuild and the second rebuild produce
different content: the name-based line lookup aliases to earlier lines, so
marks keep propagating between members across consecutive rebuilds. -/
theorem claim_C4_rebuild_not_idempotent :
    rebuild_post 3 zeroDb c4Roster
        ((rebuild_post 3 zeroDb c4Roster (some c4Start)).1) ≠
      rebuild_post 3 zeroDb c4Roster (some c4Start) := by
  decide

/-- Claim C4 (amended): `rebuild_post` is idempotent on a live,
canonically rendered post whose name lookups are collision-free: if a live
post renders entries `es` (clean names, at most five done marks each) and
the first line containing each member's name is that member's own line —
both in the current content and in the content the first rebuild produces —
then rebuilding a second time returns exactly the first rebuild's result,
byte for byte. -/
theorem claim_C4_amended_rebuild_idempotent (w : Nat) (es : List Entry)
    (db : Nat → Nat) (hne : es ≠ [])
    (hnl : ∀ e ∈ es, '\n' ∉ e.member.name ∧ '✅' ∉ e.member.name ∧ '❓' ∉ e.member.name)
    (hk : ∀ e ∈ es, e.k ≤ 5)
    (hfind1 : ∀ e ∈ es, (splitLines (renderPost w es)).find?
      (fun l => isSubstr e.member.name l) = some (entryLine w e))
    (hfind2 : ∀ e ∈ es.map (fun x => (⟨x.member, x.k, db x.member.discord_id⟩ : Entry)),
      (splitLines (renderPost w (es.map
          (fun x => (⟨x.member, x.k, db x.member.discord_id⟩ : Entry))))).find?
        (fun l => isSubstr e.member.name l) = some (entryLine w e)) :
    rebuild_post w db (es.map (fun x => x.member))
        ((rebuild_post w db (es.map (fun x => x.member)) (some (renderPost w es))).1) =
      rebuild_post w db (es.map (fun x => x.member)) (some (renderPost w es)) := by
  have hrne : es.map (fun x => x.member) ≠ [] := by
    intro hmap
    exact hne (List.map_eq_nil_iff.mp hmap)
  rw [rebuild_post_some _ _ _ _ hrne]
  have h1 : rebuildRender w db (es.map (fun x => x.member)) (renderPost w es) =
      renderPost w (es.map (fun x => (⟨x.member, x.k, db x.member.discord_id⟩ : Entry))) :=
    rebuildRender_renderPost w es db hnl hk hfind1
  rw [h1, rebuild_post_some _ _ _ _ hrne]
  have h2 : rebuildRender w db
      ((es.map (fun x => (⟨x.member, x.k, db x.member.discord_id⟩ : Entry))).map
        (fun e => e.member))
      (renderPost w (es.map (fun x => (⟨x.member, x.k, db x.member.discord_id⟩ : Entry)))) =
      renderPost w ((es.map (fun x => (⟨x.member, x.k, db x.member.discord_id⟩ : Entry))).map
        (fun x => (⟨x.member, x.k, db x.member.discord_id⟩ : Entry))) :=
    rebuildRender_renderPost w _ db
      (by
        intro e he
        rcases List.mem_map.mp he with ⟨x, hx, rfl⟩
        exact hnl x hx)
      (by
        intro e he
        rcases List.mem_map.mp he with ⟨x, hx, rfl⟩
        exact hk x hx)
      hfind2
  rw [show (es.map (fun x => (⟨x.member, x.k, db x.member.discord_id⟩ : Entry))).map
      (fun e => e.member) = es.map (fun x => x.member) by
    rw [List.map_map]; rfl] at h2
  rw [h2]
  rw [show ((es.map (fun x => (⟨x.member, x.k, db x.member.discord_id⟩ : Entry))).map
      (fun x => (⟨x.member, x.k, db x.member.discord_id⟩ : Entry))) =
    es.map (fun x => (⟨x.member, x.k, db x.member.discord_id⟩ : Entry)) by
    rw [List.map_map]; rfl]

/-- Witness for the amended C4 theorem: a concrete collision-free roster
(`Alice` with one done mark, `Bob` with none) on which the second rebuild
reproduces the first rebuild's output exactly. -/
theorem claim_C4_amended_witness :
    rebuild_post 5 zeroDb ([⟨⟨1, "Alice".data⟩, 1, 0⟩, ⟨⟨2, "Bob".data⟩, 0, 0⟩].map
        (fun x : Entry => x.member))
        ((rebuild_post 5 zeroDb ([⟨⟨1, "Alice".data⟩, 1, 0⟩, ⟨⟨2, "Bob".data⟩, 0, 0⟩].map
          (fun x : Entry => x.member))
          (some (renderPost 5 [⟨⟨1, "Alice".data⟩, 1, 0⟩, ⟨⟨2, "Bob".data⟩, 0, 0⟩]))).1) =
      rebuild_post 5 zeroDb ([⟨⟨1, "Alice".data⟩, 1, 0⟩, ⟨⟨2, "Bob".data⟩, 0, 0⟩].map
        (fun x : Entry => x.member))
        (some (renderPost 5 [⟨⟨1, "Alice".data⟩, 1, 0⟩, ⟨⟨2, "Bob".data⟩, 0, 0⟩])) :=
  claim_C4_amended_rebuild_idempotent 5 [⟨⟨1, "Alice".data⟩, 1, 0⟩, ⟨⟨2, "Bob".data⟩, 0, 0⟩]
    zeroDb (by decide) (by decide) (by decide) (by decide) (by decide)

/-- Claim C5 (amended): across any sequence of `record_checkin`
(`update_post`) calls on a well-formed rendered post whose name lookups
are collision-free at every step (each call's member name first matches
that member's own line, whose backtick core occurs once in the content),
the content stays the canonical render of an abstract state evolved by
`stepEntry` — each qualifying call flips exactly the first remaining
pending slot of that member's sequence (the canonical mark strings are
`k` done marks followed by pending ones, and a qualifying call takes `k`
to `k + 1`) — and every member's count of done marks in their own line
never decreases: the final `k` of member `i` is at least the initial one,
never above five, and equals the `✅`-count of that member's line before
and after.  The collision-freeness condition is forced by the
counterexample: without it a check-in can flip a slot of a different
member's sequence and destroy that member's line. -/
theorem claim_C5_checkin_monotone (w : Nat) (es : List Entry)
    (calls : List (Nat × Nat)) (hes : goodEntriesB w es = true)
    (hgood : ∀ t (h : t < calls.length),
      goodCallB w (runEntries es (calls.take t)) (calls.get ⟨t, h⟩).1 = true) :
    applyCalls w (es.map (fun x => x.member.name)) (renderPost w es) calls =
      renderPost w (runEntries es calls) ∧
    ∀ i (h : i < es.length), ∃ e',
      (runEntries es calls)[i]? = some e' ∧
      e'.member = (es.get ⟨i, h⟩).member ∧
      (es.get ⟨i, h⟩).k ≤ e'.k ∧ e'.k ≤ 5 ∧
      (splitLines (renderPost w es))[i]? = some (entryLine w (es.get ⟨i, h⟩)) ∧
      (entryLine w (es.get ⟨i, h⟩)).count '✅' = (es.get ⟨i, h⟩).k ∧
      (splitLines (renderPost w (runEntries es calls)))[i]? = some (entryLine w e') ∧
      (entryLine w e').count '✅' = e'.k := by
  refine ⟨applyCalls_renderPost w es calls hes hgood, ?_⟩
  intro i h
  have hget : es[i]? = some (es.get ⟨i, h⟩) := by
    rw [List.getElem?_eq_getElem h]
    rfl
  have hspec := goodEntriesB_spec hes _ (List.getElem?_mem hget)
  rcases runEntries_getElem? es calls i _ hget with ⟨e', he1, he2, he3, he4⟩
  have hspec' := goodEntriesB_spec (goodEntriesB_runEntries es calls hes) e'
    (List.getElem?_mem he1)
  refine ⟨e', he1, he2, he3, he4 hspec.2.2, ?_, ?_, ?_, ?_⟩
  · exact splitLines_renderPost_getElem? w es i _ hget hes
  · exact count_entryLine w _ (goodNameB_spec hspec.1).2.2.2.1 hspec.2.2
  · exact splitLines_renderPost_getElem? w (runEntries es calls) i e' he1
      (goodEntriesB_runEntries es calls hes)
  · exact count_entryLine w e' (goodNameB_spec hspec'.1).2.2.2.1 hspec'.2.2

/-- Witness for C5: three concrete check-ins on the `Alice`/`Bob` post
(two for Alice, one for Bob); the hypotheses are verified by computation
and the content equation is obtained from the theorem. -/
theorem claim_C5_witness :
    applyCalls 5 (c5Entries.map (fun x => x.member.name)) (renderPost 5 c5Entries)
        [(0, 1), (1, 3), (0, 2)] =
      renderPost 5 (runEntries c5Entries [(0, 1), (1, 3), (0, 2)]) :=
  (claim_C5_checkin_monotone 5 c5Entries [(0, 1), (1, 3), (0, 2)]
    (by decide) (by decide)).1

/-- Claim C5 (counterexample to the original universal statement): on the
post rendering `Bob` with two done marks and `Bo` with none — a state
reachable from `initialize_post` by two `Bob` check-ins — a single
check-in call for `Bo` flips the first pending slot of `Bob`'s sequence
and relabels his line with `Bo`'s name, so afterwards no line contains
`Bob` at all (his two done marks are lost), while `Bo`'s own line is left
unchanged with zero done marks: the member's done count decreases, and
the flipped slot is not the first pending slot of the called member's
sequence. -/
theorem claim_C5_counterexample :
    (splitLines (renderPost 3 c5CollEntries)).find?
        (fun l => isSubstr ("Bob".data) l) =
      some (entryLine 3 ⟨⟨1, "Bob".data⟩, 2, 0⟩) ∧
    (entryLine 3 ⟨⟨1, "Bob".data⟩, 2, 0⟩).count '✅' = 2 ∧
    (splitLines (applyCalls 3 (c5CollEntries.map (fun x => x.member.name))
        (renderPost 3 c5CollEntries) [(1, 1)])).find?
        (fun l => isSubstr ("Bob".data) l) = none ∧
    (splitLines (applyCalls 3 (c5CollEntries.map (fun x => x.member.name))
        (renderPost 3 c5CollEntries) [(1, 1)]))[1]? =
      (splitLines (renderPost 3 c5CollEntries))[1]? ∧
    (splitLines (renderPost 3 c5CollEntries))[1]? =
      some (entryLine 3 ⟨⟨2, "Bo".data⟩, 0, 0⟩) := by
  refine ⟨by decide, by decide, by decide, by decide, by decide⟩

/-- Claim C6: alignment invariant of the full renders.  For any roster with
newline-free names and any member index, both `initialize_post`'s render
and `rebuild_post`'s re-render produce at position `i` exactly the line
`# `name-ljust marks (Streak: ...)``, the padded name occupies exactly
`max_name_length roster` characters, and the prefix of every line up to
column `max_name_length roster + 4` is `# `` plus the padded name plus the
separating space — so the mark sequence of every line starts at the same
character column, whatever the roster membership is. -/
theorem claim_C6_alignment (roster : List TeamMember) (db : Nat → Nat) (c : Str)
    (i : Nat) (h : i < roster.length) (hnl : ∀ m ∈ roster, '\n' ∉ m.name) :
    (splitLines (renderInit (max_name_length roster) db roster))[i]? =
      some (mkLine (max_name_length roster) (roster.get ⟨i, h⟩).name
        fiveQ (db (roster.get ⟨i, h⟩).discord_id)) ∧
    (splitLines (rebuildRender (max_name_length roster) db roster c))[i]? =
      some (mkLine (max_name_length roster) (roster.get ⟨i, h⟩).name
        (memberMarks c (roster.get ⟨i, h⟩).name) (db (roster.get ⟨i, h⟩).discord_id)) ∧
    (ljust (roster.get ⟨i, h⟩).name (max_name_length roster)).length =
      max_name_length roster ∧
    (mkLine (max_name_length roster) (roster.get ⟨i, h⟩).name
        fiveQ (db (roster.get ⟨i, h⟩).discord_id)).take (max_name_length roster + 4) =
      '#' :: ' ' :: '`' :: ljust (roster.get ⟨i, h⟩).name (max_name_length roster) ++ [' '] ∧
    (mkLine (max_name_length roster) (roster.get ⟨i, h⟩).name
        (memberMarks c (roster.get ⟨i, h⟩).name)
        (db (roster.get ⟨i, h⟩).discord_id)).take (max_name_length roster + 4) =
      '#' :: ' ' :: '`' :: ljust (roster.get ⟨i, h⟩).name (max_name_length roster) ++ [' '] := by
  have hne : roster ≠ [] := by
    rintro rfl
    cases h
  have hmem : roster.get ⟨i, h⟩ ∈ roster := List.get_mem roster i h
  have hw : (roster.get ⟨i, h⟩).name.length ≤ max_name_length roster :=
    max_name_length_le hmem
  have hget : roster[i]? = some (roster.get ⟨i, h⟩) := by
    rw [List.getElem?_eq_getElem h]
    rfl
  refine ⟨?_, ?_, ljust_length hw, mkLine_take_prefix _ _ _ _ hw,
    mkLine_take_prefix _ _ _ _ hw⟩
  · rw [splitLines_renderInit _ db roster hne hnl, List.getElem?_map, hget]
    rfl
  · rw [splitLines_rebuildRender _ db roster c hne hnl, List.getElem?_map, hget]
    rfl

/-- Witness for C6 at the concrete two-member roster (index 1, `Bob`),
with the collision post `bobBoContent` as the pre-rebuild content. -/
theorem claim_C6_witness :
    (splitLines (renderInit (max_name_length twoRoster) zeroDb twoRoster))[1]? =
      some (mkLine (max_name_length twoRoster) (twoRoster.get ⟨1, by decide⟩).name
        fiveQ (zeroDb (twoRoster.get ⟨1, by decide⟩).discord_id)) ∧
    (ljust (twoRoster.get ⟨1, by decide⟩).name (max_name_length twoRoster)).length =
      max_name_length twoRoster :=
  ⟨(claim_C6_alignment twoRoster zeroDb bobBoContent 1 (by decide) (by decide)).1,
    (claim_C6_alignment twoRoster zeroDb bobBoContent 1 (by decide) (by decide)).2.2.1⟩

/-- Claim C7 (amended): `close_week` (`reset_streaks`) resets the stored
streak to zero for exactly the roster members with fewer than five done
marks in their line of the current rendered post, and leaves the stored
streak of every member with all five marks done unchanged — provided each
member's name first occurs in the content at the start of that member's
own line (collision-free lookup; the ids are distinct so each fold step
touches its own member).  The proviso is forced by the counterexample:
when a member's name first occurs inside another member's line, the
five-slot window `has_minimum_checkmarks` reads belongs to the other
member, and a fully-done member can be wrongly reset. -/
theorem claim_C7_reset_streaks (w : Nat) (es : List Entry) (db : Nat → Nat)
    (hw : ∀ e ∈ es, e.member.name.length ≤ w) (hk : ∀ e ∈ es, e.k ≤ 5)
    (hids : (es.map (fun x => x.member.discord_id)).Nodup)
    (hfind : ∀ i (h : i < es.length),
      findSub (renderPost w es) ((es.get ⟨i, h⟩).member.name) =
        some (lineStart w es i + 3)) :
    ∀ i (h : i < es.length),
      reset_streaks w (renderPost w es) (es.map (fun x => x.member)) db
          ((es.get ⟨i, h⟩).member.discord_id) =
        if (es.get ⟨i, h⟩).k = 5 then db ((es.get ⟨i, h⟩).member.discord_id) else 0 := by
  intro i h
  have hget : es[i]? = some (es.get ⟨i, h⟩) := by
    rw [List.getElem?_eq_getElem h]
    rfl
  have hmem : (es.get ⟨i, h⟩).member ∈ es.map (fun x => x.member) :=
    List.mem_map.mpr ⟨es.get ⟨i, h⟩, List.get_mem es i h, rfl⟩
  have hnodup : ((es.map (fun x => x.member)).map (fun x => x.discord_id)).Nodup := by
    rw [List.map_map]
    exact hids
  rw [reset_streaks_apply w (renderPost w es) (es.map (fun x => x.member)) db
    (es.get ⟨i, h⟩).member hmem hnodup]
  rw [has_minimum_renderPost w es i (es.get ⟨i, h⟩) 5 hget
    (hw _ (List.get_mem es i h)) (hk _ (List.get_mem es i h)) (hfind i h)]
  by_cases h5 : (es.get ⟨i, h⟩).k = 5
  · rw [if_pos h5, if_pos (by rw [h5]; decide)]
  · rw [if_neg h5, if_neg (by
      have hk5 := hk _ (List.get_mem es i h)
      simp only [decide_eq_true_eq]
      omega)]

/-- Witness for C7, the spec's own scenario: Alice at five of five,
Bob at three of five; after `close_week` Bob's stored streak is zero and
Alice's stored streak is untouched. -/
theorem claim_C7_witness :
    reset_streaks 5 (renderPost 5 c7Entries) (c7Entries.map (fun x => x.member))
        (fun _ => 9) 1 = 9 ∧
    reset_streaks 5 (renderPost 5 c7Entries) (c7Entries.map (fun x => x.member))
        (fun _ => 9) 2 = 0 := by
  constructor
  · exact claim_C7_reset_streaks 5 c7Entries (fun _ => 9) (by decide) (by decide)
      (by decide) (by decide) 0 (by decide)
  · exact claim_C7_reset_streaks 5 c7Entries (fun _ => 9) (by decide) (by decide)
      (by decide) (by decide) 1 (by decide)

/-- Claim C7 (counterexample to the original universal statement): on the
post rendering `Bob` at three of five and `Bo` at five of five, `Bo`'s own
line (index 1) carries five done marks, yet `close_week` zeroes `Bo`'s
stored streak: `content.find('Bo')` lands inside `Bob`, so
`has_minimum_checkmarks` counts `Bob`'s three marks for `Bo`. -/
theorem claim_C7_counterexample :
    (splitLines (renderPost 3 c7CollEntries))[1]? =
      some (entryLine 3 ⟨⟨2, "Bo".data⟩, 5, 0⟩) ∧
    (entryLine 3 ⟨⟨2, "Bo".data⟩, 5, 0⟩).count '✅' = 5 ∧
    reset_streaks 3 (renderPost 3 c7CollEntries)
      (c7CollEntries.map (fun x => x.member)) (fun _ => 9) 2 = 0 := by
  refine ⟨by decide, by decide, by decide⟩

/-- Claim C8: `initialize_post` fetches instead of creating exactly when a
persisted post id exists and the persisted week equals the current week:
in that case the result holds the fetched post and nothing new is
persisted.  In every other case — no persisted id, no persisted timestamp,
or week mismatch — with a non-empty roster it creates a new post whose
content is one line per roster member (in roster order) holding the padded
name, five pending marks and the streak fetched from the database rendered
by `streakAnnot` (which pluralises `day`/`days` on the value one), and the
new post id is persisted together with the current week. -/
theorem claim_C8_initialize_post {ε : Type} (w newId cw : Nat) (db : Nat → Nat)
    (roster : List TeamMember) (fetch : Nat → Except ε (Nat × Str))
    (hne : roster ≠ []) (hnl : ∀ m ∈ roster, '\n' ∉ m.name) :
    (∀ pid wk p, fetch pid = .ok p →
      initialize_post (some pid) (some wk) wk fetch w db roster newId =
        .ok ⟨some p, none⟩) ∧
    (∀ savedWeek, initialize_post none savedWeek cw fetch w db roster newId =
      .ok ⟨some (newId, renderInit w db roster), some (newId, cw)⟩) ∧
    (∀ pid, initialize_post (some pid) none cw fetch w db roster newId =
      .ok ⟨some (newId, renderInit w db roster), some (newId, cw)⟩) ∧
    (∀ pid wk, cw ≠ wk →
      initialize_post (some pid) (some wk) cw fetch w db roster newId =
        .ok ⟨some (newId, renderInit w db roster), some (newId, cw)⟩) ∧
    splitLines (renderInit w db roster) =
      roster.map (fun m => mkLine w m.name (List.replicate 5 '❓') (db m.discord_id)) := by
  have hcne : renderInit w db roster ≠ [] := renderInit_ne_nil w db roster hne
  refine ⟨?_, ?_, ?_, ?_, ?_⟩
  · intro pid wk p hok
    unfold initialize_post
    dsimp only
    rw [if_pos rfl, hok]
    rfl
  · intro savedWeek
    cases savedWeek with
    | none =>
      unfold initialize_post
      dsimp only
      rw [if_neg hcne]
    | some wk0 =>
      unfold initialize_post
      dsimp only
      rw [if_neg hcne]
  · intro pid
    unfold initialize_post
    dsimp only
    rw [if_neg hcne]
  · intro pid wk hwk
    unfold initialize_post
    dsimp only
    rw [if_neg hwk, if_neg hcne]
  · exact splitLines_renderInit w db roster hne hnl

/-- Witness for C8 at concrete input: the fetch branch returns the fetched
post without persisting, and the create branch on a fresh state returns
the two-line render and persists the new id with the current week. -/
theorem claim_C8_witness :
    initialize_post (some 42) (some 7) 7
      (fun i => (Except.ok (i, ['x']) : Except Unit (Nat × Str))) 5 zeroDb twoRoster 99 =
      Except.ok ⟨some (42, ['x']), none⟩ ∧
    initialize_post none none 7
      (fun i => (Except.ok (i, ['x']) : Except Unit (Nat × Str))) 5 zeroDb twoRoster 99 =
      Except.ok ⟨some (99, renderInit 5 zeroDb twoRoster), some (99, 7)⟩ := by
  constructor
  · exact (claim_C8_initialize_post 5 99 7 zeroDb twoRoster _ (by decide) (by decide)).1
      42 7 (42, ['x']) rfl
  · exact (claim_C8_initialize_post 5 99 7 zeroDb twoRoster _ (by decide) (by decide)).2.1
      none
